import Mathlib

/-!
Shallow embedding of mevcli.h (a tiny CLI line editor for microcontrollers)
with the default configuration:
  MEVCLI_MAX_LINE_LEN    = 78
  MEVCLI_MAX_ARGS        = 8
  MEVCLI_PROMPT          = "> "
  MEVCLI_FEAT_HISTORY    = 1
  MEVCLI_HISTORY_BUFLEN  = 512
  MEVCLI_HISTORY_MAX_STRS = 512 / 78 * 3 = 18

Bytes are modelled as Nat (0..255); C char buffers are modelled as total
functions Nat -> Nat (the cells beyond the C array bounds are never read
by the modelled code paths, mirroring the C arrays).  Emitted characters
are collected in List Nat, in emission order.  Command handlers are
modelled as functions from (argc, argv) to the bytes they emit; the
opaque cookie of the C struct is absorbed into that closure.  The C
argv-pointer scratch array ctx->args is only written and then read back
within a single dispatch, so argv is passed directly to the handler.
-/

def MEVCLI_MAX_LINE_LEN : Nat := 78
def MEVCLI_MAX_ARGS : Nat := 8
def MEVCLI_HISTORY_BUFLEN : Nat := 512
def MEVCLI_HISTORY_MAX_STRS : Nat := MEVCLI_HISTORY_BUFLEN / MEVCLI_MAX_LINE_LEN * 3
def MEVCLI_BELL_CHAR : Nat := 7

/-- Byte list of the default prompt string "> ". -/
def MEVCLI_PROMPT : List Nat := [62, 32]

/-- Bytes of a Lean string constant (used for the fixed ASCII message strings). -/
def strBytes (s : String) : List Nat := s.toList.map Char.toNat

/-- Single array-cell store: the result of a C assignment a[i] = v. -/
def store (a : Nat → Nat) (i v : Nat) : Nat → Nat := fun j => if j = i then v else a j

/-- Unsigned 32-bit subtraction (C unsigned int arithmetic), used where the C
code subtracts from an unsigned value that could in principle underflow.
For b ≤ 2^32 this equals (a + 2^32 - b) % 2^32, written in a case split so
that Lean never has to reduce the 2^32 literal when the arguments are
symbolic. -/
def usub32 (a b : Nat) : Nat := if b ≤ a then a - b else a + 4294967296 - b

/-- mevcli_cmd_t: one command descriptor.  name/help carry the bytes of the C
strings (terminator not stored); cmdfn (argc, argv) returns the bytes the
handler emits through the output callback. -/
structure mevcli_cmd_t where
  name : List Nat
  help : List Nat
  cmdfn : Nat → List (List Nat) → List Nat
  nargs : Int

def mevcli_cmd_dummy : mevcli_cmd_t := ⟨[], [], fun _ _ => [], 0⟩

/-- mevcli_ctx: the context record.  commands also carries num_commands as its
length.  Buffers are total functions; only the C-array index ranges are used. -/
structure mevcli_ctx_t where
  commands : List mevcli_cmd_t
  prompt_len : Nat
  linepos : Nat
  cursorpos : Nat
  csi_fsm_state : Nat
  line : Nat → Nat
  history : Nat → Nat
  backup_line : Nat → Nat
  backup_linepos : Nat
  history_strlens : Nat → Nat
  history_strlens_topvalid : Int
  cur_hist_browse_idx : Int

----------------------------------------------------------------------
-- Output and ANSI cursor control

/-- mevcli_newl: "\r\n". -/
def mevcli_newl_out : List Nat := [13, 10]

/-- mevcli_ansi_eraseline: ESC [ 2 K. -/
def mevcli_ansi_eraseline_out : List Nat := [27, 91, 50, 75]

/-- mevcli_ansi_eraseright: ESC [ 0 K. -/
def mevcli_ansi_eraseright_out : List Nat := [27, 91, 48, 75]

/-- In mevcli_ansi_cursorpos, when x+1 = 1000 the digit loop exits with
numdig = 3 and the printing loop reads digits[3], one past the end of the
3-byte digits array (undefined behaviour in the C code).  The unspecified
value read there is modelled by this constant; no theorem below depends on
its value. -/
def mevcli_digits_oob : Nat := 0

/-- mevcli_ansi_cursorpos: emitted bytes for an absolute column move to x.
The C digit loop (at most 3 iterations, breaking when the quotient hits 0)
is unrolled; each digit list below is printed from digits[numdig] down to
digits[0]. -/
def mevcli_ansi_cursorpos_out (x : Nat) : List Nat :=
  if x > 999 then []
  else if x = 0 then [13]
  else
    let x1 := x + 1
    let ds :=
      if x1 / 10 = 0 then [x1 % 10]
      else if x1 / 10 / 10 = 0 then [x1 / 10 % 10, x1 % 10]
      else if x1 / 10 / 10 / 10 = 0 then [x1 / 10 / 10 % 10, x1 / 10 % 10, x1 % 10]
      else [mevcli_digits_oob, x1 / 10 / 10 % 10, x1 / 10 % 10, x1 % 10]
    [27, 91] ++ ds.map (fun d => 48 + d) ++ [71]

----------------------------------------------------------------------
-- History management

/-- Byte extraction of the C string starting at a[i]: bytes up to (not
including) the first zero byte.  fuel bounds the scan; every call below
passes enough fuel to reach a terminator that is known to be present, so
the bound is never the stopping reason on those calls. -/
def mevcli_cstr (a : Nat → Nat) : Nat → Nat → List Nat
  | _, 0 => []
  | i, fuel + 1 => if a i = 0 then [] else a i :: mevcli_cstr a (i + 1) fuel

/-- Sum of lens[0..n): byte offset of history slot n (partial sums of the
per-slot packed lengths).  Also the model of the total_histlen loops. -/
def lens_sum (lens : Nat → Nat) : Nat → Nat
  | 0 => 0
  | n + 1 => lens_sum lens n + lens n

/-- The first loop of mevcli_history_append: walk the still-valid slots
(stopping at the 0 sentinel or after MEVCLI_HISTORY_MAX_STRS slots),
recording the highest slot index hc that still fits together with the new
len bytes, and the byte offset hcStart of that slot.  Arguments: i total hc
hcStart fuel; entry point uses i = 0, total = 0, hc = -1, hcStart = 0,
fuel = MEVCLI_HISTORY_MAX_STRS. -/
def mevcli_ha_scan (lens : Nat → Nat) (len : Nat) : Nat → Nat → Int → Nat → Nat → Int × Nat
  | _, _, hc, hcStart, 0 => (hc, hcStart)
  | i, total, hc, hcStart, fuel + 1 =>
    if lens i = 0 then (hc, hcStart)
    else
      let nt := total + lens i
      if (MEVCLI_HISTORY_BUFLEN : Int) - (nt : Int) ≥ (len : Int)
      then mevcli_ha_scan lens len (i + 1) nt (i : Int) total fuel
      else mevcli_ha_scan lens len (i + 1) nt hc hcStart fuel

/-- The inner byte-moving loop of mevcli_history_append: copy clen bytes of
one slot upward by len, iterating j from clen-1 down to 0 (backwards, to
avoid clobbering the overlapping source). -/
def copy_bytes_bw (start len : Nat) : Nat → (Nat → Nat) → (Nat → Nat)
  | 0, hist => hist
  | j + 1, hist => copy_bytes_bw start len j (store hist (start + len + j) (hist (start + j)))

/-- The slot-shifting loop of mevcli_history_append: for i from
highest_copyable down to 0, copy slot i's bytes up by len and shift its
length entry to lens[i+1] (dropped when i is the last slot); start is the
byte offset of slot i and is decremented by lens[i-1] between iterations
(the C code reads lens[i-1] after the lens[i+1] store, as modelled). -/
def mevcli_ha_copy (len : Nat) : Nat → (Nat → Nat) → (Nat → Nat) → Nat → ((Nat → Nat) × (Nat → Nat))
  | 0, hist, lens, start =>
      -- i = 0: 0 < MEVCLI_HISTORY_MAX_STRS - 1 always holds, so lens[1] is written
      (copy_bytes_bw start len (lens 0) hist, store lens 1 (lens 0))
  | i + 1, hist, lens, start =>
      let clen := lens (i + 1)
      let hist2 := copy_bytes_bw start len clen hist
      let lens2 := if i + 1 < MEVCLI_HISTORY_MAX_STRS - 1 then store lens (i + 2) clen else lens
      mevcli_ha_copy len i hist2 lens2 (start - lens2 i)

/-- The final copy of mevcli_history_append: write the new string's bytes at
history[0..] followed by its zero terminator (the C loop copies len =
strlen+1 bytes, terminator included). -/
def write_cstr : (Nat → Nat) → Nat → List Nat → (Nat → Nat)
  | hist, base, [] => store hist base 0
  | hist, base, b :: rest => write_cstr (store hist base b) (base + 1) rest

/-- mevcli_history_append: push last_cmd (bytes, without terminator) as the
newest history entry, evicting from the oldest end as needed. -/
def mevcli_history_append (ctx : mevcli_ctx_t) (last_cmd : List Nat) : mevcli_ctx_t :=
  let len := last_cmd.length + 1
  let sc := mevcli_ha_scan ctx.history_strlens len 0 0 (-1) 0 MEVCLI_HISTORY_MAX_STRS
  let hc : Int := sc.1
  let hcStart : Nat := sc.2
  let hl :=
    if 0 ≤ hc then mevcli_ha_copy len hc.toNat ctx.history ctx.history_strlens hcStart
    else (ctx.history, ctx.history_strlens)
  let topvalid : Int :=
    if 0 ≤ hc then (if hc < (MEVCLI_HISTORY_MAX_STRS : Int) - 1 then hc + 1 else hc)
    else 0
  let lens2 :=
    if hc < (MEVCLI_HISTORY_MAX_STRS : Int) - 2 then store hl.2 (hc + 2).toNat 0 else hl.2
  let hist2 := write_cstr hl.1 0 last_cmd
  { ctx with
      history := hist2,
      history_strlens := store lens2 0 len,
      history_strlens_topvalid := topvalid,
      cur_hist_browse_idx := -1 }

----------------------------------------------------------------------
-- Cursor movement

/-- mevcli_line_redraw: reposition to the prompt end, erase right, reprint
the whole line, reposition to the cursor. -/
def mevcli_line_redraw (c : mevcli_ctx_t) : List Nat :=
  mevcli_ansi_cursorpos_out c.prompt_len ++ mevcli_ansi_eraseright_out
    ++ (List.range c.linepos).map c.line
    ++ mevcli_ansi_cursorpos_out (c.prompt_len + c.cursorpos)

/-- mevcli_cpy: copy len bytes from src[0..] to dest[0..] (distinct buffers
at every call site). -/
def mevcli_cpy (dest src : Nat → Nat) : Nat → (Nat → Nat)
  | 0 => dest
  | n + 1 => store (mevcli_cpy dest src n) n (src n)

/-- mevcli_history_copy_browsed_line: copy the entry at cur_hist_browse_idx
(lens[idx]-1 bytes, terminator excluded, unsigned subtraction) from its
packed offset into line; returns the new context and the copied length. -/
def mevcli_history_copy_browsed_line (c : mevcli_ctx_t) : mevcli_ctx_t × Nat :=
  let idx := c.cur_hist_browse_idx.toNat
  let total := lens_sum c.history_strlens idx
  let linelen := usub32 (c.history_strlens idx) 1
  ({ c with line := mevcli_cpy c.line (fun j => c.history (total + j)) linelen }, linelen)

/-- mevcli_cursor_up: browse one entry older, backing up the in-progress
line on entry to browsing; BEL at the top (including empty history). -/
def mevcli_cursor_up (c : mevcli_ctx_t) : mevcli_ctx_t × List Nat :=
  if c.cur_hist_browse_idx = c.history_strlens_topvalid then
    (c, [MEVCLI_BELL_CHAR])
  else
    let c1 :=
      if c.cur_hist_browse_idx = -1 then
        { c with backup_line := mevcli_cpy c.backup_line c.line c.linepos,
                 backup_linepos := c.linepos }
      else c
    let c2 := { c1 with cur_hist_browse_idx := c1.cur_hist_browse_idx + 1 }
    let cb := mevcli_history_copy_browsed_line c2
    let c3 := { cb.1 with linepos := cb.2, cursorpos := cb.2 }
    (c3, mevcli_line_redraw c3)

/-- mevcli_cursor_down: browse one entry newer; at index 0 restore the
backed-up in-progress line; BEL when not browsing. -/
def mevcli_cursor_down (c : mevcli_ctx_t) : mevcli_ctx_t × List Nat :=
  if c.cur_hist_browse_idx = -1 then
    (c, [MEVCLI_BELL_CHAR])
  else if c.cur_hist_browse_idx = 0 then
    let c1 := { c with line := mevcli_cpy c.line c.backup_line c.backup_linepos,
                       linepos := c.backup_linepos,
                       cursorpos := c.backup_linepos,
                       cur_hist_browse_idx := -1 }
    (c1, mevcli_line_redraw c1)
  else
    let c2 := { c with cur_hist_browse_idx := c.cur_hist_browse_idx - 1 }
    let cb := mevcli_history_copy_browsed_line c2
    let c3 := { cb.1 with linepos := cb.2, cursorpos := cb.2 }
    (c3, mevcli_line_redraw c3)

/-- mevcli_cursor_right. -/
def mevcli_cursor_right (c : mevcli_ctx_t) : mevcli_ctx_t × List Nat :=
  if c.cursorpos < c.linepos then
    let c1 := { c with cursorpos := c.cursorpos + 1 }
    (c1, mevcli_ansi_cursorpos_out (c1.cursorpos + c1.prompt_len))
  else (c, [])

/-- mevcli_cursor_left. -/
def mevcli_cursor_left (c : mevcli_ctx_t) : mevcli_ctx_t × List Nat :=
  if c.cursorpos > 0 then
    let c1 := { c with cursorpos := c.cursorpos - 1 }
    (c1, mevcli_ansi_cursorpos_out (c1.cursorpos + c1.prompt_len))
  else (c, [])

/-- The loop of mevcli_search_word_left: i counts down from cursorpos; the
cell inspected in an iteration with first argument i+1 is line[i]. -/
def search_wl (line : Nat → Nat) : Nat → Bool → Nat
  | 0, _ => 0
  | i + 1, saw =>
    if line i ≤ 32 then
      (if saw then i + 1 else search_wl line i saw)
    else search_wl line i true

/-- mevcli_search_word_left. -/
def mevcli_search_word_left (c : mevcli_ctx_t) : Nat :=
  search_wl c.line c.cursorpos false

/-- The loop of mevcli_search_word_right: i counts up from cursorpos to
linepos; fuel bounds the iteration count (callers pass linepos, enough to
cover the whole scan). -/
def search_wr (line : Nat → Nat) (linepos : Nat) : Nat → Bool → Nat → Nat
  | _, _, 0 => linepos
  | i, saw, fuel + 1 =>
    if i < linepos then
      if line i ≤ 32 then
        (if saw then i else search_wr line linepos (i + 1) saw fuel)
      else search_wr line linepos (i + 1) true fuel
    else linepos

/-- mevcli_search_word_right. -/
def mevcli_search_word_right (c : mevcli_ctx_t) : Nat :=
  search_wr c.line c.linepos c.cursorpos false c.linepos

/-- mevcli_cursor_right_word (always emits the column move). -/
def mevcli_cursor_right_word (c : mevcli_ctx_t) : mevcli_ctx_t × List Nat :=
  let c1 := { c with cursorpos := mevcli_search_word_right c }
  (c1, mevcli_ansi_cursorpos_out (c1.cursorpos + c1.prompt_len))

/-- mevcli_cursor_left_word (always emits the column move). -/
def mevcli_cursor_left_word (c : mevcli_ctx_t) : mevcli_ctx_t × List Nat :=
  let c1 := { c with cursorpos := mevcli_search_word_left c }
  (c1, mevcli_ansi_cursorpos_out (c1.cursorpos + c1.prompt_len))

/-- mevcli_cursor_start. -/
def mevcli_cursor_start (c : mevcli_ctx_t) : mevcli_ctx_t × List Nat :=
  if c.cursorpos > 0 then
    ({ c with cursorpos := 0 }, mevcli_ansi_cursorpos_out c.prompt_len)
  else (c, [])

/-- mevcli_cursor_end. -/
def mevcli_cursor_end (c : mevcli_ctx_t) : mevcli_ctx_t × List Nat :=
  if c.cursorpos < c.linepos then
    ({ c with cursorpos := c.linepos },
      mevcli_ansi_cursorpos_out (c.linepos + c.prompt_len))
  else (c, [])

----------------------------------------------------------------------
-- Editing/insertion

/-- The shifting loop of mevcli_cut_down_to: for i from cursorpos while
i < linepos, line[pos + i - cursorpos] = line[i]; delta = cursorpos - pos,
so the write index is i - delta. -/
def cut_shift (delta : Nat) : Nat → Nat → (Nat → Nat) → (Nat → Nat)
  | _, 0, line => line
  | i, fuel + 1, line => cut_shift delta (i + 1) fuel (store line (i - delta) (line i))

/-- The redraw tail shared by mevcli_cut_down_to's exits: move to the
cursor, erase right, reprint line[cursorpos..linepos), move back. -/
def mevcli_cut_tail_out (c : mevcli_ctx_t) : List Nat :=
  mevcli_ansi_cursorpos_out (c.prompt_len + c.cursorpos) ++ mevcli_ansi_eraseright_out
    ++ (List.range (c.linepos - c.cursorpos)).map (fun k => c.line (c.cursorpos + k))
    ++ mevcli_ansi_cursorpos_out (c.prompt_len + c.cursorpos)

/-- mevcli_cut_down_to: delete from the cursor down to pos (callers ensure
pos <= cursorpos, as the C assert documents). -/
def mevcli_cut_down_to (c : mevcli_ctx_t) (pos : Nat) : mevcli_ctx_t × List Nat :=
  let distance := c.cursorpos - pos
  if c.cursorpos = c.linepos then
    let c1 := { c with cursorpos := pos, linepos := pos }
    if distance = 1 then (c1, [8, 32, 8])
    else (c1, mevcli_cut_tail_out c1)
  else
    let line2 := cut_shift distance c.cursorpos (c.linepos - c.cursorpos) c.line
    let c1 := { c with line := line2, linepos := c.linepos - distance, cursorpos := pos }
    (c1, mevcli_cut_tail_out c1)

/-- mevcli_char_delete. -/
def mevcli_char_delete (c : mevcli_ctx_t) : mevcli_ctx_t × List Nat :=
  if c.cursorpos > 0 then mevcli_cut_down_to c (c.cursorpos - 1) else (c, [])

/-- mevcli_cut_start. -/
def mevcli_cut_start (c : mevcli_ctx_t) : mevcli_ctx_t × List Nat :=
  mevcli_cut_down_to c 0

/-- mevcli_cut_word. -/
def mevcli_cut_word (c : mevcli_ctx_t) : mevcli_ctx_t × List Nat :=
  mevcli_cut_down_to c (mevcli_search_word_left c)

/-- mevcli_cut_end. -/
def mevcli_cut_end (c : mevcli_ctx_t) : mevcli_ctx_t × List Nat :=
  if c.cursorpos < c.linepos then
    ({ c with linepos := c.cursorpos }, mevcli_ansi_eraseright_out)
  else (c, [])

/-- The gap-making loop of mevcli_char_insert: after linepos++ the loop runs
i from the new linepos down to cursorpos+1 doing line[i] = line[i-1]; with
fuel = newlinepos - cursorpos the iteration with fuel d+1 writes index
cursorpos+d+1. -/
def ins_shift (cpos : Nat) : Nat → (Nat → Nat) → (Nat → Nat)
  | 0, line => line
  | d + 1, line => ins_shift cpos d (store line (cpos + d + 1) (line (cpos + d)))

/-- mevcli_char_insert. -/
def mevcli_char_insert (c : mevcli_ctx_t) (inb : Nat) : mevcli_ctx_t × List Nat :=
  if c.linepos ≥ MEVCLI_MAX_LINE_LEN then (c, [MEVCLI_BELL_CHAR])
  else if c.cursorpos = c.linepos then
    ({ c with line := store c.line c.linepos inb,
              linepos := c.linepos + 1, cursorpos := c.cursorpos + 1 }, [inb])
  else
    let lp := c.linepos + 1
    let line2 := store (ins_shift c.cursorpos (lp - c.cursorpos) c.line) c.cursorpos inb
    let c1 := { c with line := line2, linepos := lp, cursorpos := c.cursorpos + 1 }
    (c1, mevcli_ansi_cursorpos_out (c1.prompt_len + c1.cursorpos - 1)
          ++ mevcli_ansi_eraseright_out
          ++ (List.range (c1.linepos - (c1.cursorpos - 1))).map
               (fun k => c1.line (c1.cursorpos - 1 + k))
          ++ mevcli_ansi_cursorpos_out (c1.prompt_len + c1.cursorpos))

----------------------------------------------------------------------
-- Command execution

/-- mevcli_help: blank line, banner, command list, blank line (the default
build has no MEVCLI_EXTRA_HELPSTRING). -/
def mevcli_help_out (cmds : List mevcli_cmd_t) (why : List Nat) : List Nat :=
  mevcli_newl_out ++ why ++ strBytes ".  Commands are:" ++ [13, 10, 13, 10]
    ++ (cmds.map (fun cm => [9] ++ cm.name ++ cm.help ++ [13, 10])).flatten
    ++ mevcli_newl_out

/-- mevcli_lowercase_alpha. -/
def mevcli_lowercase_alpha (ch : Nat) : Nat :=
  if 65 ≤ ch ∧ ch ≤ 90 then ch ||| 32 else ch

/-- mevcli_str_match: case-insensitive exact match of two byte strings. -/
def mevcli_str_match : List Nat → List Nat → Bool
  | [], [] => true
  | _ :: _, [] => false
  | [], _ :: _ => false
  | n :: ns, h :: hs =>
    mevcli_lowercase_alpha n = mevcli_lowercase_alpha h && mevcli_str_match ns hs

/-- The command-start scan of mevcli_process_cmd: first index i < linepos
with line[i] > ' ' (fuel = number of cells left to scan). -/
def mevcli_find_cmd_from (line : Nat → Nat) : Nat → Nat → Option Nat
  | _, 0 => none
  | i, fuel + 1 => if line i > 32 then some i else mevcli_find_cmd_from line (i + 1) fuel

/-- The aftercmd_idx scan of mevcli_process_cmd: first index at or after the
command start whose byte is ≤ ' ' (the C code records it inside the
terminator-writing loop before that cell is overwritten, so scanning the
pre-tokenization line is equivalent). -/
def mevcli_find_le_space_from (line : Nat → Nat) : Nat → Nat → Option Nat
  | _, 0 => none
  | i, fuel + 1 => if line i ≤ 32 then some i else mevcli_find_le_space_from line (i + 1) fuel

/-- The terminator-writing loop of mevcli_process_cmd: every byte ≤ ' ' in
line[i..i+fuel) is overwritten with 0 (each cell is read before any write
at that cell, so the threaded reads equal the original bytes). -/
def mevcli_tok : Nat → Nat → (Nat → Nat) → (Nat → Nat)
  | _, 0, line => line
  | i, fuel + 1, line => mevcli_tok (i + 1) fuel (if line i ≤ 32 then store line i 0 else line)

/-- The command-table scan: index of the first matching entry. -/
def mevcli_find_command (cmds : List mevcli_cmd_t) (word : List Nat) : Option Nat :=
  cmds.findIdx? (fun cm => mevcli_str_match word cm.name)

/-- The argument-skipping inner loop of mevcli_process_cmd: advance from i
to the next zero byte, stopping at linepos. -/
def skip_arg (line : Nat → Nat) : Nat → Nat → Nat
  | i, 0 => i
  | i, fuel + 1 => if line i = 0 then i else skip_arg line (i + 1) fuel

/-- The argv-collection loop of mevcli_process_cmd: walk the region after
the command collecting the terminated substrings; after storing the
MEVCLI_MAX_ARGS-th pointer the loop breaks.  fuel bounds the outer
iterations (callers pass linepos + 1, enough since i strictly grows). -/
def mevcli_collect_args (line : Nat → Nat) (linepos : Nat) : Nat → Nat → Nat → List (List Nat)
  | _, _, 0 => []
  | i, argc, fuel + 1 =>
    if i < linepos then
      if line i ≠ 0 then
        let arg := mevcli_cstr line i (linepos + 1 - i)
        if argc + 1 ≥ MEVCLI_MAX_ARGS then [arg]
        else
          let j := skip_arg line i (linepos - i)
          arg :: mevcli_collect_args line linepos (j + 1) (argc + 1) fuel
      else mevcli_collect_args line linepos (i + 1) argc fuel
    else []

/-- Result of feeding one input byte (or of one line submission): the new
context, the emitted bytes, and the handler invocation if one happened
(command index and argv). -/
structure mevcli_step_result where
  ctx : mevcli_ctx_t
  out : List Nat
  call : Option (Nat × List (List Nat))

/-- mevcli_process_cmd: terminate and tokenize the line, append the trimmed
line to history, match and dispatch; every path falls through to the
shared exit that zeroes cursorpos/linepos and reprints the prompt. -/
def mevcli_process_cmd (ctx : mevcli_ctx_t) : mevcli_step_result :=
  let line0 := store ctx.line ctx.linepos 0
  let body : mevcli_ctx_t × List Nat × Option (Nat × List (List Nat)) :=
    match mevcli_find_cmd_from line0 0 ctx.linepos with
    | none => ({ ctx with line := line0 }, [], none)
    | some command_idx =>
      let command := mevcli_cstr line0 command_idx (ctx.linepos + 1 - command_idx)
      let ctx1 := mevcli_history_append { ctx with line := line0 } command
      let aftercmd := mevcli_find_le_space_from line0 command_idx (ctx.linepos - command_idx)
      let line1 := mevcli_tok command_idx (ctx.linepos - command_idx) line0
      let ctx2 := { ctx1 with line := line1 }
      let word := mevcli_cstr line1 command_idx (ctx.linepos + 1 - command_idx)
      match mevcli_find_command ctx.commands word with
      | none => (ctx2, mevcli_help_out ctx.commands (strBytes "Unknown command"), none)
      | some ci =>
        let cmd := ctx.commands.getD ci mevcli_cmd_dummy
        let argv : List (List Nat) :=
          match aftercmd with
          | none => []
          | some ai => mevcli_collect_args line1 ctx.linepos ai 0 (ctx.linepos + 1)
        if cmd.nargs ≠ -1 ∧ cmd.nargs ≠ (argv.length : Int) then
          (ctx2, mevcli_help_out ctx.commands (strBytes "Command args are incorrect"), none)
        else
          (ctx2, cmd.cmdfn argv.length argv, some (ci, argv))
  { ctx := { body.1 with cursorpos := 0, linepos := 0, prompt_len := MEVCLI_PROMPT.length },
    out := mevcli_newl_out ++ body.2.1 ++ MEVCLI_PROMPT,
    call := body.2.2 }

----------------------------------------------------------------------
-- Input processing

/-- Result of mevcli_process_esc_seq: new context, emitted bytes, and
whether the byte was consumed by the FSM. -/
structure mevcli_esc_result where
  ctx : mevcli_ctx_t
  out : List Nat
  handled : Bool

/-- mevcli_process_esc_seq: three-state ESC/CSI recognizer.  The cursor ops
never read csi_fsm_state, so resetting it before dispatch (as written) is
the same as the C control flow. -/
def mevcli_process_esc_seq (c : mevcli_ctx_t) (inb : Nat) : mevcli_esc_result :=
  if c.csi_fsm_state = 0 then
    if inb = 27 then ⟨{ c with csi_fsm_state := 1 }, [], true⟩
    else ⟨c, [], false⟩
  else if c.csi_fsm_state = 1 then
    if inb = 91 then ⟨{ c with csi_fsm_state := 2 }, [], true⟩
    else
      let c0 := { c with csi_fsm_state := 0 }
      if inb = 98 then let r := mevcli_cursor_left_word c0; ⟨r.1, r.2, true⟩
      else if inb = 102 then let r := mevcli_cursor_right_word c0; ⟨r.1, r.2, true⟩
      else ⟨c0, [], true⟩
  else
    let c0 := { c with csi_fsm_state := 0 }
    if inb = 65 then let r := mevcli_cursor_up c0; ⟨r.1, r.2, true⟩
    else if inb = 66 then let r := mevcli_cursor_down c0; ⟨r.1, r.2, true⟩
    else if inb = 67 then let r := mevcli_cursor_right c0; ⟨r.1, r.2, true⟩
    else if inb = 68 then let r := mevcli_cursor_left c0; ⟨r.1, r.2, true⟩
    else ⟨c0, [], true⟩

/-- Lift a (context, output) pair to a step result with no handler call. -/
def mevcli_lift (p : mevcli_ctx_t × List Nat) : mevcli_step_result :=
  { ctx := p.1, out := p.2, call := none }

/-- mevcli_input_char: feed one input byte.  Bytes are Nat; for byte values
128..255 the C signed char is negative, so the C test (in < ' ') ignores
them just as the > 126 test does here. -/
def mevcli_input_char (c : mevcli_ctx_t) (inb : Nat) : mevcli_step_result :=
  let esc := mevcli_process_esc_seq c inb
  if esc.handled then { ctx := esc.ctx, out := esc.out, call := none }
  else if inb = 9 then { ctx := c, out := [], call := none }
  else if inb = 13 then mevcli_process_cmd c
  else if inb = 127 then mevcli_lift (mevcli_char_delete c)
  else if inb = 1 then mevcli_lift (mevcli_cursor_start c)
  else if inb = 5 then mevcli_lift (mevcli_cursor_end c)
  else if inb = 21 then mevcli_lift (mevcli_cut_start c)
  else if inb = 23 then mevcli_lift (mevcli_cut_word c)
  else if inb = 11 then mevcli_lift (mevcli_cut_end c)
  else if inb < 32 ∨ inb > 126 then { ctx := c, out := [], call := none }
  else mevcli_lift (mevcli_char_insert c inb)

----------------------------------------------------------------------
-- External API

/-- The lens-clearing loop of mevcli_init. -/
def mevcli_clear_lens : Nat → (Nat → Nat) → (Nat → Nat)
  | 0, lens => lens
  | n + 1, lens => store (mevcli_clear_lens n lens) n 0

/-- mevcli_init: takes the caller-owned (otherwise uninitialized) context
record, stores the command table, clears FSM/line/history bookkeeping and
emits the first prompt.  Fields the C code does not assign (line bytes,
history bytes, backup_line, backup_linepos, prompt contents) keep their
arbitrary prior values. -/
def mevcli_init (ctx0 : mevcli_ctx_t) (cmds : List mevcli_cmd_t) : mevcli_ctx_t × List Nat :=
  ({ ctx0 with
      commands := cmds,
      csi_fsm_state := 0,
      cursorpos := 0,
      linepos := 0,
      history_strlens := mevcli_clear_lens MEVCLI_HISTORY_MAX_STRS ctx0.history_strlens,
      history_strlens_topvalid := -1,
      cur_hist_browse_idx := -1,
      prompt_len := MEVCLI_PROMPT.length },
    MEVCLI_PROMPT)

/-- Contexts reachable through the public API: some mevcli_init call on an
arbitrary pre-existing record, followed by any sequence of
mevcli_input_char calls with arbitrary input bytes. -/
inductive mevcli_reachable : mevcli_ctx_t → Prop where
  | init : ∀ (ctx0 : mevcli_ctx_t) (cmds : List mevcli_cmd_t),
      mevcli_reachable (mevcli_init ctx0 cmds).1
  | step : ∀ (c : mevcli_ctx_t) (inb : Nat),
      mevcli_reachable c → mevcli_reachable (mevcli_input_char c inb).ctx

----------------------------------------------------------------------
-- The state invariant maintained by the public API

/-- Printable 7-bit ASCII, the only bytes mevcli inserts into the line. -/
def printable (b : Nat) : Prop := 32 ≤ b ∧ b ≤ 126

/-- Line-buffer invariant: 0 ≤ cursorpos ≤ linepos ≤ L and every byte of
line[0..linepos) is printable. -/
def line_inv (c : mevcli_ctx_t) : Prop :=
  c.cursorpos ≤ c.linepos ∧ c.linepos ≤ MEVCLI_MAX_LINE_LEN ∧
    ∀ i, i < c.linepos → printable (c.line i)

/-- History-store invariant, stated over the three history fields (byte
pool, packed-length table, top_valid): top_valid in range, every valid slot
has a packed length (terminator included) between 2 and L+1 with printable
string bytes at its packed offset, the packed lengths sum to at most H,
and the length list is 0-terminated when a slot remains. -/
def hist_inv_data (hist lens : Nat → Nat) (tv : Int) : Prop :=
  -1 ≤ tv ∧
  tv < (MEVCLI_HISTORY_MAX_STRS : Int) ∧
  (∀ i : Nat, (i : Int) ≤ tv →
    2 ≤ lens i ∧ lens i ≤ MEVCLI_MAX_LINE_LEN + 1 ∧
      ∀ j, j + 1 < lens i → printable (hist (lens_sum lens i + j))) ∧
  lens_sum lens (tv + 1).toNat ≤ MEVCLI_HISTORY_BUFLEN ∧
  (tv + 1 < (MEVCLI_HISTORY_MAX_STRS : Int) → lens (tv + 1).toNat = 0)

/-- The history-store invariant of a context. -/
def hist_inv (c : mevcli_ctx_t) : Prop :=
  hist_inv_data c.history c.history_strlens c.history_strlens_topvalid

/-- Browse-state invariant: browse_idx within [-1, top_valid], and while
browsing the backed-up in-progress line is well formed. -/
def browse_inv (c : mevcli_ctx_t) : Prop :=
  -1 ≤ c.cur_hist_browse_idx ∧ c.cur_hist_browse_idx ≤ c.history_strlens_topvalid ∧
    (0 ≤ c.cur_hist_browse_idx →
      c.backup_linepos ≤ MEVCLI_MAX_LINE_LEN ∧
        ∀ i, i < c.backup_linepos → printable (c.backup_line i))

/-- The combined invariant preserved by mevcli_init and mevcli_input_char. -/
def mevcli_inv (c : mevcli_ctx_t) : Prop :=
  line_inv c ∧ c.csi_fsm_state ≤ 2 ∧ hist_inv c ∧ browse_inv c

----------------------------------------------------------------------
-- Basic facts about the loop models

theorem MEVCLI_HISTORY_MAX_STRS_eq : MEVCLI_HISTORY_MAX_STRS = 18 := rfl

theorem store_spec (a : Nat → Nat) (i v j : Nat) :
    store a i v j = if j = i then v else a j := rfl

theorem mevcli_cpy_spec (dest src : Nat → Nat) :
    ∀ n j, mevcli_cpy dest src n j = if j < n then src j else dest j := by
  intro n
  induction n with
  | zero => intro j; simp [mevcli_cpy]
  | succ n ih =>
    intro j
    simp only [mevcli_cpy, store]
    by_cases hj : j = n
    · subst hj; simp
    · rw [if_neg hj, ih j]
      by_cases h1 : j < n
      · rw [if_pos h1, if_pos (by omega)]
      · rw [if_neg h1, if_neg (by omega)]

theorem mevcli_clear_lens_spec :
    ∀ n lens j, mevcli_clear_lens n lens j = if j < n then 0 else lens j := by
  intro n
  induction n with
  | zero => intro lens j; simp [mevcli_clear_lens]
  | succ n ih =>
    intro lens j
    simp only [mevcli_clear_lens, store]
    by_cases hj : j = n
    · subst hj; simp
    · rw [if_neg hj, ih lens j]
      by_cases h1 : j < n
      · rw [if_pos h1, if_pos (by omega)]
      · rw [if_neg h1, if_neg (by omega)]

theorem cut_shift_spec (delta : Nat) :
    ∀ fuel i line j, delta ≤ i →
      cut_shift delta i fuel line j =
        if i - delta ≤ j ∧ j < i - delta + fuel then line (j + delta) else line j := by
  intro fuel
  induction fuel with
  | zero => intro i line j h; simp only [cut_shift]; rw [if_neg (by omega)]
  | succ fuel ih =>
    intro i line j h
    simp only [cut_shift]
    rw [ih (i + 1) _ j (by omega)]
    by_cases h1 : i + 1 - delta ≤ j ∧ j < i + 1 - delta + fuel
    · rw [if_pos h1, if_pos (by omega)]
      simp only [store]
      rw [if_neg (by omega)]
    · rw [if_neg h1]
      simp only [store]
      by_cases h2 : j = i - delta
      · rw [if_pos h2, if_pos (by omega)]
        congr 1
        omega
      · rw [if_neg h2, if_neg (by omega)]

theorem ins_shift_spec (cpos : Nat) :
    ∀ d line j, ins_shift cpos d line j =
      if cpos + 1 ≤ j ∧ j ≤ cpos + d then line (j - 1) else line j := by
  intro d
  induction d with
  | zero => intro line j; simp only [ins_shift]; rw [if_neg (by omega)]
  | succ d ih =>
    intro line j
    simp only [ins_shift]
    rw [ih _ j]
    by_cases h1 : cpos + 1 ≤ j ∧ j ≤ cpos + d
    · rw [if_pos h1, if_pos (by omega)]
      simp only [store]
      rw [if_neg (by omega)]
    · rw [if_neg h1]
      simp only [store]
      by_cases h2 : j = cpos + d + 1
      · rw [if_pos h2, if_pos (by omega)]
        congr 1
        omega
      · rw [if_neg h2, if_neg (by omega)]

theorem copy_bytes_bw_spec (start len : Nat) :
    ∀ clen hist j, copy_bytes_bw start len clen hist j =
      if start + len ≤ j ∧ j < start + len + clen then hist (j - len) else hist j := by
  intro clen
  induction clen with
  | zero => intro hist j; simp only [copy_bytes_bw]; rw [if_neg (by omega)]
  | succ clen ih =>
    intro hist j
    simp only [copy_bytes_bw]
    rw [ih _ j]
    by_cases h1 : start + len ≤ j ∧ j < start + len + clen
    · rw [if_pos h1, if_pos (by omega)]
      simp only [store]
      rw [if_neg (by omega)]
    · rw [if_neg h1]
      simp only [store]
      by_cases h2 : j = start + len + clen
      · rw [if_pos h2, if_pos (by omega)]
        congr 1
        omega
      · rw [if_neg h2, if_neg (by omega)]

theorem write_cstr_spec :
    ∀ (s : List Nat) (hist : Nat → Nat) (base j : Nat),
      write_cstr hist base s j =
        if base ≤ j ∧ j < base + s.length then s.getD (j - base) 0
        else if j = base + s.length then 0 else hist j := by
  intro s
  induction s with
  | nil =>
    intro hist base j
    simp only [write_cstr, store, List.length_nil]
    by_cases h : j = base
    · rw [if_pos h, if_neg (by omega), if_pos (by omega)]
    · rw [if_neg h, if_neg (by omega), if_neg (by omega)]
  | cons b rest ih =>
    intro hist base j
    simp only [write_cstr, List.length_cons]
    rw [ih _ (base + 1) j]
    by_cases h1 : base + 1 ≤ j ∧ j < base + 1 + rest.length
    · rw [if_pos h1, if_pos (by omega)]
      have hj : j - base = (j - (base + 1)) + 1 := by omega
      rw [hj]
      simp [List.getD]
    · rw [if_neg h1]
      by_cases h2 : j = base + 1 + rest.length
      · rw [if_pos h2, if_neg (by omega), if_pos (by omega)]
      · rw [if_neg h2]
        simp only [store]
        by_cases h3 : j = base
        · rw [if_pos h3, if_pos (by omega)]
          subst h3
          simp [List.getD]
        · rw [if_neg h3, if_neg (by omega), if_neg (by omega)]

theorem lens_sum_succ (lens : Nat → Nat) (n : Nat) :
    lens_sum lens (n + 1) = lens_sum lens n + lens n := rfl

theorem lens_sum_congr (f g : Nat → Nat) :
    ∀ n, (∀ j, j < n → f j = g j) → lens_sum f n = lens_sum g n := by
  intro n
  induction n with
  | zero => intro _; rfl
  | succ n ih =>
    intro h
    simp only [lens_sum]
    rw [ih (fun j hj => h j (by omega)), h n (by omega)]

theorem lens_sum_mono (f : Nat → Nat) : ∀ m n, m ≤ n → lens_sum f m ≤ lens_sum f n := by
  intro m n
  induction n with
  | zero =>
    intro h
    rw [Nat.le_zero.mp h]
  | succ n ih =>
    intro h
    by_cases hm : m = n + 1
    · subst hm; omega
    · have := ih (by omega)
      simp only [lens_sum]
      omega

theorem lens_sum_shift (f g : Nat → Nat) (A : Nat) :
    ∀ m, g 0 = A → (∀ j, 1 ≤ j → j < m + 1 → g j = f (j - 1)) →
      lens_sum g (m + 1) = A + lens_sum f m := by
  intro m
  induction m with
  | zero => intro h0 _; simp [lens_sum, h0]
  | succ m ih =>
    intro h0 hsh
    have hgm : g (m + 1) = f m := by
      have h := hsh (m + 1) (by omega) (by omega)
      simpa using h
    have hrec := ih h0 (fun j h1 h2 => hsh j h1 (by omega))
    calc lens_sum g (m + 2) = lens_sum g (m + 1) + g (m + 1) := rfl
      _ = (A + lens_sum f m) + f m := by rw [hrec, hgm]
      _ = A + lens_sum f (m + 1) := by simp only [lens_sum]; omega

theorem usub32_one (a : Nat) (h1 : 1 ≤ a) : usub32 a 1 = a - 1 := by
  unfold usub32
  rw [if_pos h1]

theorem getD_range_map (f : Nat → Nat) (k j d : Nat) (h : j < k) :
    (((List.range k).map f).getD j d) = f j := by
  rw [List.getD_eq_getElem?_getD]
  rw [List.getElem?_map]
  rw [List.getElem?_range h]
  rfl

theorem mevcli_cstr_spec (a : Nat → Nat) :
    ∀ fuel i k, k < fuel → (∀ m, m < k → a (i + m) ≠ 0) → a (i + k) = 0 →
      mevcli_cstr a i fuel = (List.range k).map (fun m => a (i + m)) := by
  intro fuel
  induction fuel with
  | zero => intro i k h; omega
  | succ fuel ih =>
    intro i k hk hnz hterm
    by_cases h0 : a i = 0
    · have hk0 : k = 0 := by
        by_contra hne
        exact hnz 0 (by omega) (by simpa using h0)
      subst hk0
      simp [mevcli_cstr, h0]
    · have hkpos : k ≠ 0 := by
        intro hke
        subst hke
        exact h0 (by simpa using hterm)
      obtain ⟨k1, rfl⟩ : ∃ k1, k = k1 + 1 := ⟨k - 1, by omega⟩
      simp only [mevcli_cstr, if_neg h0]
      rw [ih (i + 1) k1 (by omega)
        (fun m hm => by
          have h2 := hnz (m + 1) (by omega)
          rwa [show i + (m + 1) = i + 1 + m from by omega] at h2)
        (by
          have h3 : i + 1 + k1 = i + (k1 + 1) := by omega
          rw [h3]; exact hterm)]
      rw [List.range_succ_eq_map, List.map_cons, List.map_map]
      congr 1
      apply List.map_congr_left
      intro m hm
      have hidx : i + 1 + m = i + (m + 1) := by omega
      rw [Function.comp_apply, hidx]

theorem mevcli_find_cmd_from_none_iff (line : Nat → Nat) :
    ∀ fuel i, mevcli_find_cmd_from line i fuel = none ↔
      ∀ m, i ≤ m → m < i + fuel → line m ≤ 32 := by
  intro fuel
  induction fuel with
  | zero =>
    intro i
    simp only [mevcli_find_cmd_from]
    constructor
    · intro _ m h1 h2; omega
    · intro _; trivial
  | succ fuel ih =>
    intro i
    simp only [mevcli_find_cmd_from]
    by_cases h : line i > 32
    · rw [if_pos h]
      constructor
      · intro hc; cases hc
      · intro hr
        exact absurd (hr i (by omega) (by omega)) (by omega)
    · rw [if_neg h]
      rw [ih (i + 1)]
      constructor
      · intro hr m h1 h2
        by_cases hm : m = i
        · subst hm; omega
        · exact hr m (by omega) (by omega)
      · intro hr m h1 h2
        exact hr m (by omega) (by omega)

theorem mevcli_find_cmd_from_first (line : Nat → Nat) :
    ∀ fuel i j, i ≤ j → j < i + fuel → 32 < line j → (∀ m, i ≤ m → m < j → line m ≤ 32) →
      mevcli_find_cmd_from line i fuel = some j := by
  intro fuel
  induction fuel with
  | zero => intro i j h1 h2; omega
  | succ fuel ih =>
    intro i j h1 h2 h3 h4
    simp only [mevcli_find_cmd_from]
    by_cases hij : i = j
    · subst hij; rw [if_pos h3]
    · rw [if_neg (by have := h4 i (by omega) (by omega); omega)]
      exact ih (i + 1) j (by omega) (by omega) h3 (fun m hm1 hm2 => h4 m (by omega) hm2)

theorem search_wl_le (line : Nat → Nat) : ∀ i saw, search_wl line i saw ≤ i := by
  intro i
  induction i with
  | zero => intro saw; simp [search_wl]
  | succ i ih =>
    intro saw
    simp only [search_wl]
    split_ifs with h1 h2
    · omega
    · have := ih saw; omega
    · have := ih true; omega

theorem search_wr_le (line : Nat → Nat) (linepos : Nat) :
    ∀ fuel i saw, search_wr line linepos i saw fuel ≤ linepos := by
  intro fuel
  induction fuel with
  | zero => intro i saw; simp [search_wr]
  | succ fuel ih =>
    intro i saw
    simp only [search_wr]
    split_ifs with h1 h2 h3
    · omega
    · exact ih (i + 1) saw
    · exact ih (i + 1) true
    · omega

theorem mevcli_ha_scan_spec (lens : Nat → Nat) (len : Nat) :
    ∀ fuel i total hc hcStart,
      total = lens_sum lens i →
      (∀ j, j < i → lens j ≠ 0) →
      (hc = -1 ∧ hcStart = 0 ∨
        0 ≤ hc ∧ hc.toNat < i ∧ hcStart = lens_sum lens hc.toNat ∧
          (len : Int) + (lens_sum lens (hc.toNat + 1) : Int) ≤ (MEVCLI_HISTORY_BUFLEN : Int)) →
      ((mevcli_ha_scan lens len i total hc hcStart fuel).1 = -1 ∧
          (mevcli_ha_scan lens len i total hc hcStart fuel).2 = 0) ∨
        (0 ≤ (mevcli_ha_scan lens len i total hc hcStart fuel).1 ∧
          (mevcli_ha_scan lens len i total hc hcStart fuel).1.toNat < i + fuel ∧
          (∀ j, j ≤ (mevcli_ha_scan lens len i total hc hcStart fuel).1.toNat → lens j ≠ 0) ∧
          (mevcli_ha_scan lens len i total hc hcStart fuel).2 =
            lens_sum lens (mevcli_ha_scan lens len i total hc hcStart fuel).1.toNat ∧
          (len : Int) +
              (lens_sum lens ((mevcli_ha_scan lens len i total hc hcStart fuel).1.toNat + 1) : Int)
            ≤ (MEVCLI_HISTORY_BUFLEN : Int)) := by
  intro fuel
  induction fuel with
  | zero =>
    intro i total hc hcStart htot hnz hpre
    simp only [mevcli_ha_scan]
    rcases hpre with ⟨h1, h2⟩ | ⟨h1, h2, h3, h4⟩
    · left; exact ⟨h1, h2⟩
    · right
      exact ⟨h1, by omega, fun j hj => hnz j (by omega), h3, h4⟩
  | succ fuel ih =>
    intro i total hc hcStart htot hnz hpre
    simp only [mevcli_ha_scan]
    by_cases hz : lens i = 0
    · rw [if_pos hz]
      rcases hpre with ⟨h1, h2⟩ | ⟨h1, h2, h3, h4⟩
      · left; exact ⟨h1, h2⟩
      · right
        exact ⟨h1, by omega, fun j hj => hnz j (by omega), h3, h4⟩
    · rw [if_neg hz]
      have htot1 : total + lens i = lens_sum lens (i + 1) := by
        rw [lens_sum_succ, htot]
      have hnz1 : ∀ j, j < i + 1 → lens j ≠ 0 := by
        intro j hj
        by_cases hji : j = i
        · subst hji; exact hz
        · exact hnz j (by omega)
      by_cases hfit : (MEVCLI_HISTORY_BUFLEN : Int) - ((total + lens i : Nat) : Int) ≥ (len : Int)
      · rw [if_pos hfit]
        have hpre1 : ((i : Int) = -1 ∧ total = 0) ∨
            (0 ≤ (i : Int) ∧ (i : Int).toNat < i + 1 ∧ total = lens_sum lens (i : Int).toNat ∧
              (len : Int) + (lens_sum lens ((i : Int).toNat + 1) : Int) ≤ (MEVCLI_HISTORY_BUFLEN : Int)) := by
          right
          refine ⟨by omega, by simp, by simp [htot], ?_⟩
          simp only [Int.toNat_natCast]
          rw [← htot1]
          omega
        have := ih (i + 1) (total + lens i) (i : Int) total htot1 hnz1 hpre1
        rcases this with ⟨h1, h2⟩ | ⟨h1, h2, h3, h4, h5⟩
        · left; exact ⟨h1, h2⟩
        · right; exact ⟨h1, by omega, h3, h4, h5⟩
      · rw [if_neg hfit]
        have hpre1 : (hc = -1 ∧ hcStart = 0) ∨
            (0 ≤ hc ∧ hc.toNat < i + 1 ∧ hcStart = lens_sum lens hc.toNat ∧
              (len : Int) + (lens_sum lens (hc.toNat + 1) : Int) ≤ (MEVCLI_HISTORY_BUFLEN : Int)) := by
          rcases hpre with ⟨h1, h2⟩ | ⟨h1, h2, h3, h4⟩
          · left; exact ⟨h1, h2⟩
          · right; exact ⟨h1, by omega, h3, h4⟩
        have := ih (i + 1) (total + lens i) hc hcStart htot1 hnz1 hpre1
        rcases this with ⟨h1, h2⟩ | ⟨h1, h2, h3, h4, h5⟩
        · left; exact ⟨h1, h2⟩
        · right; exact ⟨h1, by omega, h3, h4, h5⟩

theorem mevcli_ha_copy_spec (len : Nat) :
    ∀ i hist lens start, start = lens_sum lens i →
      (∀ x, (mevcli_ha_copy len i hist lens start).1 x =
        if len ≤ x ∧ x < len + lens_sum lens (i + 1) then hist (x - len) else hist x) ∧
      (∀ j, (mevcli_ha_copy len i hist lens start).2 j =
        if 1 ≤ j ∧ j ≤ i + 1 ∧ j ≤ 17 then lens (j - 1) else lens j) := by
  intro i
  induction i with
  | zero =>
    intro hist lens start hstart
    have hs0 : start = 0 := by simpa [lens_sum] using hstart
    subst hs0
    constructor
    · intro x
      simp only [mevcli_ha_copy]
      rw [copy_bytes_bw_spec]
      have h1 : lens_sum lens (0 + 1) = lens 0 := by simp [lens_sum]
      rw [h1]
      by_cases h : len ≤ x ∧ x < len + lens 0
      · rw [if_pos (by omega), if_pos h]
      · rw [if_neg (by omega), if_neg h]
    · intro j
      simp only [mevcli_ha_copy, store]
      by_cases hj : j = 1
      · rw [if_pos hj, if_pos (by omega)]
        subst hj
        norm_num
      · rw [if_neg hj, if_neg (by omega)]
  | succ i ih =>
    intro hist lens start hstart
    have h17 : MEVCLI_HISTORY_MAX_STRS - 1 = 17 := rfl
    simp only [mevcli_ha_copy, h17]
    have hsucc : lens_sum lens (i + 1) = lens_sum lens i + lens i := lens_sum_succ lens i
    by_cases hi17 : i + 1 < 17
    · rw [if_pos hi17]
      have hl2i : store lens (i + 2) (lens (i + 1)) i = lens i := by
        simp only [store]
        rw [if_neg (by omega)]
      rw [hl2i]
      have hagree : ∀ j, j < i + 2 → store lens (i + 2) (lens (i + 1)) j = lens j := by
        intro j hj
        simp only [store]
        rw [if_neg (by omega)]
      have hstart' : start - lens i = lens_sum (store lens (i + 2) (lens (i + 1))) i := by
        rw [lens_sum_congr _ lens i (fun j hj => hagree j (by omega))]
        omega
      obtain ⟨IH1, IH2⟩ := ih (copy_bytes_bw start len (lens (i + 1)) hist)
        (store lens (i + 2) (lens (i + 1))) (start - lens i) hstart'
      have hsum_l2 : lens_sum (store lens (i + 2) (lens (i + 1))) (i + 1) = lens_sum lens (i + 1) :=
        lens_sum_congr _ lens (i + 1) (fun j hj => hagree j (by omega))
      have hsum2 : lens_sum lens (i + 1 + 1) = start + lens (i + 1) := by
        rw [lens_sum_succ]
        omega
      constructor
      · intro x
        rw [IH1 x, hsum_l2, ← hstart, hsum2]
        simp only [copy_bytes_bw_spec]
        by_cases hx1 : len ≤ x ∧ x < len + start
        · rw [if_pos hx1, if_neg (by omega), if_pos (by omega)]
        · by_cases hx2 : len ≤ x ∧ x < len + (start + lens (i + 1))
          · rw [if_neg hx1, if_pos (by omega), if_pos (by omega)]
          · rw [if_neg hx1, if_neg (by omega), if_neg (by omega)]
      · intro j
        rw [IH2 j]
        by_cases hj1 : 1 ≤ j ∧ j ≤ i + 1 ∧ j ≤ 17
        · rw [if_pos hj1, if_pos (by omega)]
          simp only [store]
          rw [if_neg (by omega)]
        · by_cases hj2 : j = i + 2 ∧ j ≤ 17
          · rw [if_neg hj1, if_pos (by omega)]
            simp only [store]
            rw [if_pos (by omega)]
            congr 1
            omega
          · rw [if_neg hj1, if_neg (by omega)]
            simp only [store]
            rw [if_neg (by omega)]
    · rw [if_neg hi17]
      have hstart' : start - lens i = lens_sum lens i := by omega
      obtain ⟨IH1, IH2⟩ := ih (copy_bytes_bw start len (lens (i + 1)) hist)
        lens (start - lens i) hstart'
      have hsum2 : lens_sum lens (i + 1 + 1) = start + lens (i + 1) := by
        rw [lens_sum_succ]
        omega
      constructor
      · intro x
        rw [IH1 x, ← hstart, hsum2]
        simp only [copy_bytes_bw_spec]
        by_cases hx1 : len ≤ x ∧ x < len + start
        · rw [if_pos hx1, if_neg (by omega), if_pos (by omega)]
        · by_cases hx2 : len ≤ x ∧ x < len + (start + lens (i + 1))
          · rw [if_neg hx1, if_pos (by omega), if_pos (by omega)]
          · rw [if_neg hx1, if_neg (by omega), if_neg (by omega)]
      · intro j
        rw [IH2 j]
        by_cases hj : 1 ≤ j ∧ j ≤ 17
        · rw [if_pos (by omega), if_pos (by omega)]
        · rw [if_neg (by omega), if_neg (by omega)]

----------------------------------------------------------------------
-- Invariant preservation, operation by operation

theorem inv_cursor_right (c : mevcli_ctx_t) (h : mevcli_inv c) :
    mevcli_inv (mevcli_cursor_right c).1 := by
  obtain ⟨⟨h1, h2, h3⟩, hcsi, hh, hb⟩ := h
  unfold mevcli_cursor_right
  split_ifs with hc
  · exact ⟨⟨by show c.cursorpos + 1 ≤ c.linepos; omega, h2, h3⟩, hcsi, hh, hb⟩
  · exact ⟨⟨h1, h2, h3⟩, hcsi, hh, hb⟩

theorem inv_cursor_left (c : mevcli_ctx_t) (h : mevcli_inv c) :
    mevcli_inv (mevcli_cursor_left c).1 := by
  obtain ⟨⟨h1, h2, h3⟩, hcsi, hh, hb⟩ := h
  unfold mevcli_cursor_left
  split_ifs with hc
  · exact ⟨⟨by show c.cursorpos - 1 ≤ c.linepos; omega, h2, h3⟩, hcsi, hh, hb⟩
  · exact ⟨⟨h1, h2, h3⟩, hcsi, hh, hb⟩

theorem inv_cursor_start (c : mevcli_ctx_t) (h : mevcli_inv c) :
    mevcli_inv (mevcli_cursor_start c).1 := by
  obtain ⟨⟨h1, h2, h3⟩, hcsi, hh, hb⟩ := h
  unfold mevcli_cursor_start
  split_ifs with hc
  · exact ⟨⟨by show 0 ≤ c.linepos; omega, h2, h3⟩, hcsi, hh, hb⟩
  · exact ⟨⟨h1, h2, h3⟩, hcsi, hh, hb⟩

theorem inv_cursor_end (c : mevcli_ctx_t) (h : mevcli_inv c) :
    mevcli_inv (mevcli_cursor_end c).1 := by
  obtain ⟨⟨h1, h2, h3⟩, hcsi, hh, hb⟩ := h
  unfold mevcli_cursor_end
  split_ifs with hc
  · exact ⟨⟨by show c.linepos ≤ c.linepos; omega, h2, h3⟩, hcsi, hh, hb⟩
  · exact ⟨⟨h1, h2, h3⟩, hcsi, hh, hb⟩

theorem inv_cursor_left_word (c : mevcli_ctx_t) (h : mevcli_inv c) :
    mevcli_inv (mevcli_cursor_left_word c).1 := by
  obtain ⟨⟨h1, h2, h3⟩, hcsi, hh, hb⟩ := h
  unfold mevcli_cursor_left_word mevcli_search_word_left
  have hle := search_wl_le c.line c.cursorpos false
  exact ⟨⟨by show search_wl c.line c.cursorpos false ≤ c.linepos; omega, h2, h3⟩, hcsi, hh, hb⟩

theorem inv_cursor_right_word (c : mevcli_ctx_t) (h : mevcli_inv c) :
    mevcli_inv (mevcli_cursor_right_word c).1 := by
  obtain ⟨⟨h1, h2, h3⟩, hcsi, hh, hb⟩ := h
  unfold mevcli_cursor_right_word mevcli_search_word_right
  have hle := search_wr_le c.line c.linepos c.linepos c.cursorpos false
  exact ⟨⟨by
    show search_wr c.line c.linepos c.cursorpos false c.linepos ≤ c.linepos
    omega, h2, h3⟩, hcsi, hh, hb⟩

theorem inv_cut_down_to (c : mevcli_ctx_t) (pos : Nat) (hpos : pos ≤ c.cursorpos)
    (h : mevcli_inv c) : mevcli_inv (mevcli_cut_down_to c pos).1 := by
  obtain ⟨⟨h1, h2, h3⟩, hcsi, hh, hb⟩ := h
  simp only [mevcli_cut_down_to]
  split_ifs with hce hd
  · refine ⟨⟨?_, ?_, ?_⟩, hcsi, hh, hb⟩
    · show pos ≤ pos; omega
    · show pos ≤ MEVCLI_MAX_LINE_LEN; omega
    · intro i hi
      have hi2 : i < pos := hi
      show printable (c.line i)
      exact h3 i (by omega)
  · refine ⟨⟨?_, ?_, ?_⟩, hcsi, hh, hb⟩
    · show pos ≤ pos; omega
    · show pos ≤ MEVCLI_MAX_LINE_LEN; omega
    · intro i hi
      have hi2 : i < pos := hi
      show printable (c.line i)
      exact h3 i (by omega)
  · refine ⟨⟨?_, ?_, ?_⟩, hcsi, hh, hb⟩
    · show pos ≤ c.linepos - (c.cursorpos - pos); omega
    · show c.linepos - (c.cursorpos - pos) ≤ MEVCLI_MAX_LINE_LEN; omega
    · intro i hi
      have hi2 : i < c.linepos - (c.cursorpos - pos) := hi
      show printable
        (cut_shift (c.cursorpos - pos) c.cursorpos (c.linepos - c.cursorpos) c.line i)
      rw [cut_shift_spec _ _ _ _ _ (by omega)]
      split_ifs with hr
      · exact h3 _ (by omega)
      · exact h3 _ (by omega)

theorem inv_char_delete (c : mevcli_ctx_t) (h : mevcli_inv c) :
    mevcli_inv (mevcli_char_delete c).1 := by
  unfold mevcli_char_delete
  split_ifs with hc
  · exact inv_cut_down_to c (c.cursorpos - 1) (by omega) h
  · exact h

theorem inv_cut_start (c : mevcli_ctx_t) (h : mevcli_inv c) :
    mevcli_inv (mevcli_cut_start c).1 :=
  inv_cut_down_to c 0 (by omega) h

theorem inv_cut_word (c : mevcli_ctx_t) (h : mevcli_inv c) :
    mevcli_inv (mevcli_cut_word c).1 := by
  unfold mevcli_cut_word mevcli_search_word_left
  exact inv_cut_down_to c _ (search_wl_le c.line c.cursorpos false) h

theorem inv_cut_end (c : mevcli_ctx_t) (h : mevcli_inv c) :
    mevcli_inv (mevcli_cut_end c).1 := by
  obtain ⟨⟨h1, h2, h3⟩, hcsi, hh, hb⟩ := h
  unfold mevcli_cut_end
  split_ifs with hc
  · refine ⟨⟨?_, ?_, ?_⟩, hcsi, hh, hb⟩
    · show c.cursorpos ≤ c.cursorpos; omega
    · show c.cursorpos ≤ MEVCLI_MAX_LINE_LEN; omega
    · intro i hi
      have hi2 : i < c.cursorpos := hi
      show printable (c.line i)
      exact h3 i (by omega)
  · exact ⟨⟨h1, h2, h3⟩, hcsi, hh, hb⟩

theorem inv_char_insert (c : mevcli_ctx_t) (inb : Nat)
    (hin1 : 32 ≤ inb) (hin2 : inb ≤ 126) (h : mevcli_inv c) :
    mevcli_inv (mevcli_char_insert c inb).1 := by
  obtain ⟨⟨h1, h2, h3⟩, hcsi, hh, hb⟩ := h
  unfold mevcli_char_insert
  split_ifs with hfull hend
  · exact ⟨⟨h1, h2, h3⟩, hcsi, hh, hb⟩
  · refine ⟨⟨?_, ?_, ?_⟩, hcsi, hh, hb⟩
    · show c.cursorpos + 1 ≤ c.linepos + 1; omega
    · show c.linepos + 1 ≤ MEVCLI_MAX_LINE_LEN
      unfold MEVCLI_MAX_LINE_LEN at hfull ⊢
      omega
    · intro i hi
      have hi2 : i < c.linepos + 1 := hi
      show printable (store c.line c.linepos inb i)
      simp only [store]
      split_ifs with hieq
      · exact ⟨hin1, hin2⟩
      · exact h3 i (by omega)
  · refine ⟨⟨?_, ?_, ?_⟩, hcsi, hh, hb⟩
    · show c.cursorpos + 1 ≤ c.linepos + 1; omega
    · show c.linepos + 1 ≤ MEVCLI_MAX_LINE_LEN
      unfold MEVCLI_MAX_LINE_LEN at hfull ⊢
      omega
    · intro i hi
      have hi2 : i < c.linepos + 1 := hi
      show printable
        (store (ins_shift c.cursorpos (c.linepos + 1 - c.cursorpos) c.line) c.cursorpos inb i)
      simp only [store]
      split_ifs with hieq
      · exact ⟨hin1, hin2⟩
      · rw [ins_shift_spec]
        split_ifs with hr
        · exact h3 _ (by omega)
        · exact h3 _ (by omega)

set_option maxRecDepth 4000

theorem copy_browsed_spec (c2 : mevcli_ctx_t)
    (hh : hist_inv c2) (hbr0 : 0 ≤ c2.cur_hist_browse_idx)
    (hbrt : c2.cur_hist_browse_idx ≤ c2.history_strlens_topvalid) :
    (mevcli_history_copy_browsed_line c2).2 ≤ MEVCLI_MAX_LINE_LEN ∧
      ∀ i, i < (mevcli_history_copy_browsed_line c2).2 →
        printable ((mevcli_history_copy_browsed_line c2).1.line i) := by
  obtain ⟨ht1, ht2, hts, htsum, htz⟩ := hh
  have hidx : (c2.cur_hist_browse_idx.toNat : Int) ≤ c2.history_strlens_topvalid := by omega
  obtain ⟨hs1, hs2, hs3⟩ := hts c2.cur_hist_browse_idx.toNat hidx
  have hlen : usub32 (c2.history_strlens c2.cur_hist_browse_idx.toNat) 1
      = c2.history_strlens c2.cur_hist_browse_idx.toNat - 1 :=
    usub32_one _ (by omega)
  simp only [mevcli_history_copy_browsed_line]
  constructor
  · rw [hlen]
    omega
  · intro i hi
    rw [hlen] at hi
    show printable (mevcli_cpy c2.line
      (fun j => c2.history (lens_sum c2.history_strlens c2.cur_hist_browse_idx.toNat + j))
      (usub32 (c2.history_strlens c2.cur_hist_browse_idx.toNat) 1) i)
    rw [mevcli_cpy_spec, hlen, if_pos (by omega)]
    exact hs3 i (by omega)

theorem inv_cursor_up (c : mevcli_ctx_t) (h : mevcli_inv c) :
    mevcli_inv (mevcli_cursor_up c).1 := by
  obtain ⟨⟨h1, h2, h3⟩, hcsi, hh, ⟨hb1, hb2, hb3⟩⟩ := h
  simp only [mevcli_cursor_up]
  split_ifs with htop hbm
  · exact ⟨⟨h1, h2, h3⟩, hcsi, hh, hb1, hb2, hb3⟩
  · -- entering browse from normal editing: back up the line, browse slot 0
    have htv0 : 0 ≤ c.history_strlens_topvalid := by
      rcases hh with ⟨ht1, _, _, _, _⟩
      omega
    set c2 : mevcli_ctx_t :=
      { c with backup_line := mevcli_cpy c.backup_line c.line c.linepos,
               backup_linepos := c.linepos,
               cur_hist_browse_idx := c.cur_hist_browse_idx + 1 } with hc2
    have hh2 : hist_inv c2 := hh
    have hcb := copy_browsed_spec c2 hh2 (by show 0 ≤ c.cur_hist_browse_idx + 1; omega)
      (by show c.cur_hist_browse_idx + 1 ≤ c.history_strlens_topvalid; omega)
    refine ⟨⟨?_, ?_, ?_⟩, hcsi, hh2, ?_, ?_, ?_⟩
    · show (mevcli_history_copy_browsed_line c2).2 ≤ (mevcli_history_copy_browsed_line c2).2
      omega
    · exact hcb.1
    · exact hcb.2
    · show -1 ≤ c.cur_hist_browse_idx + 1; omega
    · show c.cur_hist_browse_idx + 1 ≤ c.history_strlens_topvalid; omega
    · intro _
      constructor
      · show c.linepos ≤ MEVCLI_MAX_LINE_LEN; exact h2
      · intro i hi
        have hi2 : i < c.linepos := hi
        show printable (mevcli_cpy c.backup_line c.line c.linepos i)
        rw [mevcli_cpy_spec, if_pos (by omega)]
        exact h3 i hi2
  · -- already browsing: move one entry older
    set c2 : mevcli_ctx_t :=
      { c with cur_hist_browse_idx := c.cur_hist_browse_idx + 1 } with hc2
    have hh2 : hist_inv c2 := hh
    have hcb := copy_browsed_spec c2 hh2 (by show 0 ≤ c.cur_hist_browse_idx + 1; omega)
      (by show c.cur_hist_browse_idx + 1 ≤ c.history_strlens_topvalid; omega)
    refine ⟨⟨?_, ?_, ?_⟩, hcsi, hh2, ?_, ?_, ?_⟩
    · show (mevcli_history_copy_browsed_line c2).2 ≤ (mevcli_history_copy_browsed_line c2).2
      omega
    · exact hcb.1
    · exact hcb.2
    · show -1 ≤ c.cur_hist_browse_idx + 1; omega
    · show c.cur_hist_browse_idx + 1 ≤ c.history_strlens_topvalid; omega
    · intro _
      exact hb3 (by omega)

theorem inv_cursor_down (c : mevcli_ctx_t) (h : mevcli_inv c) :
    mevcli_inv (mevcli_cursor_down c).1 := by
  obtain ⟨⟨h1, h2, h3⟩, hcsi, hh, ⟨hb1, hb2, hb3⟩⟩ := h
  simp only [mevcli_cursor_down]
  split_ifs with hbm hb0
  · exact ⟨⟨h1, h2, h3⟩, hcsi, hh, hb1, hb2, hb3⟩
  · -- browse index 0: restore the backed-up line, leave browsing
    obtain ⟨hbl, hblp⟩ := hb3 (by omega)
    refine ⟨⟨?_, ?_, ?_⟩, hcsi, hh, ?_, ?_, ?_⟩
    · show c.backup_linepos ≤ c.backup_linepos; omega
    · exact hbl
    · intro i hi
      have hi2 : i < c.backup_linepos := hi
      show printable (mevcli_cpy c.line c.backup_line c.backup_linepos i)
      rw [mevcli_cpy_spec, if_pos (by omega)]
      exact hblp i hi2
    · show (-1 : Int) ≤ -1; omega
    · show (-1 : Int) ≤ c.history_strlens_topvalid; omega
    · intro hx
      exact absurd hx (by norm_num)
  · -- move one entry newer
    set c2 : mevcli_ctx_t :=
      { c with cur_hist_browse_idx := c.cur_hist_browse_idx - 1 } with hc2
    have hh2 : hist_inv c2 := hh
    have hcb := copy_browsed_spec c2 hh2 (by show 0 ≤ c.cur_hist_browse_idx - 1; omega)
      (by show c.cur_hist_browse_idx - 1 ≤ c.history_strlens_topvalid; omega)
    refine ⟨⟨?_, ?_, ?_⟩, hcsi, hh2, ?_, ?_, ?_⟩
    · show (mevcli_history_copy_browsed_line c2).2 ≤ (mevcli_history_copy_browsed_line c2).2
      omega
    · exact hcb.1
    · exact hcb.2
    · show -1 ≤ c.cur_hist_browse_idx - 1; omega
    · show c.cur_hist_browse_idx - 1 ≤ c.history_strlens_topvalid; omega
    · intro _
      exact hb3 (by omega)

theorem inv_process_esc_seq (c : mevcli_ctx_t) (inb : Nat) (h : mevcli_inv c) :
    mevcli_inv (mevcli_process_esc_seq c inb).ctx := by
  obtain ⟨hl, hcsi, hh, hb⟩ := h
  have hc0 : mevcli_inv { c with csi_fsm_state := 0 } := ⟨hl, by norm_num, hh, hb⟩
  simp only [mevcli_process_esc_seq]
  split_ifs with hs0 h27 h91 h98 h102 h65 h66 h67 h68
  · exact ⟨hl, by norm_num, hh, hb⟩
  · exact ⟨hl, hcsi, hh, hb⟩
  · exact ⟨hl, by norm_num, hh, hb⟩
  · exact inv_cursor_left_word _ hc0
  · exact inv_cursor_right_word _ hc0
  · exact hc0
  · exact inv_cursor_up _ hc0
  · exact inv_cursor_down _ hc0
  · exact inv_cursor_right _ hc0
  · exact inv_cursor_left _ hc0
  · exact hc0

theorem write_cstr_lt (s : List Nat) (h : Nat → Nat) (j : Nat) (hj : j < s.length) :
    write_cstr h 0 s j = s.getD j 0 := by
  rw [write_cstr_spec, if_pos ⟨by omega, by omega⟩]
  norm_num

theorem write_cstr_term (s : List Nat) (h : Nat → Nat) :
    write_cstr h 0 s s.length = 0 := by
  rw [write_cstr_spec, if_neg (by omega), if_pos (by omega)]

theorem write_cstr_gt (s : List Nat) (h : Nat → Nat) (j : Nat) (hj : s.length < j) :
    write_cstr h 0 s j = h j := by
  rw [write_cstr_spec, if_neg (by omega), if_neg (by omega)]

theorem MEVCLI_MAX_LINE_LEN_eq : MEVCLI_MAX_LINE_LEN = 78 := rfl

theorem MEVCLI_HISTORY_BUFLEN_eq : MEVCLI_HISTORY_BUFLEN = 512 := rfl

theorem MEVCLI_HISTORY_MAX_STRS_int : (MEVCLI_HISTORY_MAX_STRS : Int) = 18 := by
  norm_num [MEVCLI_HISTORY_MAX_STRS_eq]

theorem MEVCLI_HISTORY_BUFLEN_int : (MEVCLI_HISTORY_BUFLEN : Int) = 512 := by
  norm_num [MEVCLI_HISTORY_BUFLEN_eq]

/-- The history store after mevcli_history_append in the case where the scan
found a highest copyable slot n: the shift preserves every slot invariant,
the new sums stay within the pool, and the length list stays terminated. -/
theorem append_hist_inv_data_caseB
    (hist L : Nat → Nat) (s : List Nat) (n : Nat) (start : Nat)
    (hstart : start = lens_sum L n)
    (hsum : ((s.length + 1 : Nat) : Int) + (lens_sum L (n + 1) : Int) ≤ (MEVCLI_HISTORY_BUFLEN : Int))
    (hslots : ∀ m, m ≤ n → 2 ≤ L m ∧ L m ≤ MEVCLI_MAX_LINE_LEN + 1 ∧
        ∀ j, j + 1 < L m → printable (hist (lens_sum L m + j)))
    (hn17 : n ≤ 17)
    (hl1 : 1 ≤ s.length) (hl2 : s.length ≤ MEVCLI_MAX_LINE_LEN)
    (hpr : ∀ j, j < s.length → printable (s.getD j 0)) :
    hist_inv_data
      (write_cstr (mevcli_ha_copy (s.length + 1) n hist L start).1 0 s)
      (store (if (n : Int) < (MEVCLI_HISTORY_MAX_STRS : Int) - 2
              then store (mevcli_ha_copy (s.length + 1) n hist L start).2 ((n : Int) + 2).toNat 0
              else (mevcli_ha_copy (s.length + 1) n hist L start).2) 0 (s.length + 1))
      (if (n : Int) < (MEVCLI_HISTORY_MAX_STRS : Int) - 1 then (n : Int) + 1 else (n : Int)) := by
  obtain ⟨HC1, HC2⟩ := mevcli_ha_copy_spec (s.length + 1) n hist L start hstart
  have hMi := MEVCLI_HISTORY_MAX_STRS_int
  have hML := MEVCLI_MAX_LINE_LEN_eq
  have hHi := MEVCLI_HISTORY_BUFLEN_int
  set HC := mevcli_ha_copy (s.length + 1) n hist L start with hHC
  set HF := write_cstr HC.1 0 s with hHF
  set LF := store (if (n : Int) < (MEVCLI_HISTORY_MAX_STRS : Int) - 2
      then store HC.2 ((n : Int) + 2).toNat 0 else HC.2) 0 (s.length + 1) with hLF
  have F0 : LF 0 = s.length + 1 := by
    rw [hLF]
    simp [store]
  have F1 : ∀ j, 1 ≤ j → j ≤ n + 1 → j ≤ 17 → LF j = L (j - 1) := by
    intro j hj1 hjn hj17
    rw [hLF]
    simp only [store]
    rw [if_neg (by omega)]
    by_cases hsent : (n : Int) < (MEVCLI_HISTORY_MAX_STRS : Int) - 2
    · rw [if_pos hsent]
      have htn : ((n : Int) + 2).toNat = n + 2 := by omega
      simp only [store, htn]
      rw [if_neg (by omega), HC2 j, if_pos ⟨hj1, hjn, hj17⟩]
    · rw [if_neg hsent, HC2 j, if_pos ⟨hj1, hjn, hj17⟩]
  have F2 : n ≤ 15 → LF (n + 2) = 0 := by
    intro hn15
    rw [hLF]
    simp only [store]
    rw [if_neg (by omega), if_pos (by rw [hMi]; omega)]
    have htn : ((n : Int) + 2).toNat = n + 2 := by omega
    simp only [store, htn]
    simp
  have F3 : ∀ m, m ≤ n + 1 → m ≤ 17 → lens_sum LF (m + 1) = (s.length + 1) + lens_sum L m := by
    intro m hm1 hm17
    exact lens_sum_shift L LF (s.length + 1) m F0
      (fun j hj1 hj2 => F1 j hj1 (by omega) (by omega))
  have F4a : ∀ j, j < s.length → HF j = s.getD j 0 := by
    intro j hj
    rw [hHF]
    exact write_cstr_lt s HC.1 j hj
  have F4c : ∀ x, s.length < x → x < (s.length + 1) + lens_sum L (n + 1) →
      HF x = hist (x - (s.length + 1)) := by
    intro x hx1 hx2
    rw [hHF, write_cstr_gt s HC.1 x hx1, HC1 x, if_pos ⟨by omega, by omega⟩]
  have hslotF : ∀ i : Nat, i ≤ n + 1 → i ≤ 17 →
      2 ≤ LF i ∧ LF i ≤ MEVCLI_MAX_LINE_LEN + 1 ∧
        ∀ j, j + 1 < LF i → printable (HF (lens_sum LF i + j)) := by
    intro i hi1 hi17
    by_cases hi0 : i = 0
    · subst hi0
      rw [F0]
      refine ⟨by omega, by omega, ?_⟩
      intro j hj
      have hj2 : j < s.length := by omega
      rw [show lens_sum LF 0 + j = j from by simp [lens_sum], F4a j hj2]
      exact hpr j hj2
    · have hi1' : 1 ≤ i := by omega
      rw [F1 i hi1' hi1 hi17]
      obtain ⟨hs1, hs2, hs3⟩ := hslots (i - 1) (by omega)
      refine ⟨hs1, hs2, ?_⟩
      intro j hj
      have hsum_i : lens_sum LF i = (s.length + 1) + lens_sum L (i - 1) := by
        rw [show i = (i - 1) + 1 from by omega]
        exact F3 (i - 1) (by omega) (by omega)
      rw [hsum_i]
      have hmono : lens_sum L ((i - 1) + 1) ≤ lens_sum L (n + 1) :=
        lens_sum_mono L _ _ (by omega)
      rw [lens_sum_succ] at hmono
      rw [show s.length + 1 + lens_sum L (i - 1) + j
            = (s.length + 1) + (lens_sum L (i - 1) + j) from by omega]
      rw [F4c _ (by omega) (by omega)]
      rw [show s.length + 1 + (lens_sum L (i - 1) + j) - (s.length + 1)
            = lens_sum L (i - 1) + j from by omega]
      exact hs3 j hj
  by_cases hb : (n : Int) < (MEVCLI_HISTORY_MAX_STRS : Int) - 1
  · rw [if_pos hb]
    have hn16 : n ≤ 16 := by rw [hMi] at hb; omega
    refine ⟨by omega, by rw [hMi]; omega, ?_, ?_, ?_⟩
    · intro i hi
      exact hslotF i (by omega) (by omega)
    · rw [show ((n : Int) + 1 + 1).toNat = (n + 1) + 1 from by omega]
      rw [F3 (n + 1) (by omega) (by omega)]
      rw [MEVCLI_HISTORY_BUFLEN_eq]
      rw [hHi] at hsum
      omega
    · intro hlt
      rw [hMi] at hlt
      have hn15 : n ≤ 15 := by omega
      rw [show ((n : Int) + 1 + 1).toNat = n + 2 from by omega]
      exact F2 hn15
  · rw [if_neg hb]
    have hn17e : n = 17 := by rw [hMi] at hb; omega
    refine ⟨by omega, by rw [hMi]; omega, ?_, ?_, ?_⟩
    · intro i hi
      exact hslotF i (by omega) (by omega)
    · rw [show ((n : Int) + 1).toNat = n + 1 from by omega]
      subst hn17e
      rw [show (17 : Nat) + 1 = 17 + 1 from rfl]
      rw [F3 17 (by omega) (by omega)]
      have hmono : lens_sum L 17 ≤ lens_sum L (17 + 1) := lens_sum_mono L _ _ (by omega)
      rw [MEVCLI_HISTORY_BUFLEN_eq]
      rw [hHi] at hsum
      omega
    · intro hlt
      rw [hMi] at hlt
      omega

theorem inv_history_append (c : mevcli_ctx_t) (s : List Nat)
    (hh : hist_inv c)
    (hl1 : 1 ≤ s.length) (hl2 : s.length ≤ MEVCLI_MAX_LINE_LEN)
    (hpr : ∀ j, j < s.length → printable (s.getD j 0)) :
    hist_inv (mevcli_history_append c s) ∧
      (mevcli_history_append c s).cur_hist_browse_idx = -1 ∧
      0 ≤ (mevcli_history_append c s).history_strlens_topvalid := by
  obtain ⟨ht1, ht2, hts, htsum, htz⟩ := hh
  have hMi := MEVCLI_HISTORY_MAX_STRS_int
  have hscan := mevcli_ha_scan_spec c.history_strlens (s.length + 1) MEVCLI_HISTORY_MAX_STRS
    0 0 (-1) 0 rfl (fun j hj => absurd hj (by omega)) (Or.inl ⟨rfl, rfl⟩)
  simp only [mevcli_history_append]
  rcases hscan with ⟨hm1, hm2⟩ | ⟨hge, hlt, hnz, hst, hsum⟩
  · rw [hm1, hm2]
    have hneg : ¬ (0 : Int) ≤ -1 := by norm_num
    have hpos2 : (-1 : Int) < (MEVCLI_HISTORY_MAX_STRS : Int) - 2 := by rw [hMi]; norm_num
    rw [if_neg hneg, if_neg hneg, if_pos hpos2]
    rw [show ((-1 : Int) + 2).toNat = 1 from by omega]
    refine ⟨?_, by trivial, by show (0 : Int) ≤ 0; norm_num⟩
    show hist_inv_data (write_cstr c.history 0 s)
      (store (store c.history_strlens 1 0) 0 (s.length + 1)) 0
    refine ⟨by norm_num, by rw [hMi]; norm_num, ?_, ?_, ?_⟩
    · intro i hi
      have hi0 : i = 0 := by omega
      subst hi0
      have hL0 : store (store c.history_strlens 1 0) 0 (s.length + 1) 0 = s.length + 1 := by
        simp [store]
      rw [hL0]
      refine ⟨by omega, by rw [MEVCLI_MAX_LINE_LEN_eq]; rw [MEVCLI_MAX_LINE_LEN_eq] at hl2; omega, ?_⟩
      intro j hj
      rw [show lens_sum (store (store c.history_strlens 1 0) 0 (s.length + 1)) 0 + j = j
            from by simp [lens_sum]]
      rw [write_cstr_lt s c.history j (by omega)]
      exact hpr j (by omega)
    · rw [show ((0 : Int) + 1).toNat = 1 from by omega]
      rw [show lens_sum (store (store c.history_strlens 1 0) 0 (s.length + 1)) 1 = s.length + 1
            from by simp [lens_sum, store]]
      rw [MEVCLI_HISTORY_BUFLEN_eq]
      rw [MEVCLI_MAX_LINE_LEN_eq] at hl2
      omega
    · intro hlt
      rw [show ((0 : Int) + 1).toNat = 1 from by omega]
      simp [store]
  · have hb18 : (mevcli_ha_scan c.history_strlens (s.length + 1) 0 0 (-1) 0
        MEVCLI_HISTORY_MAX_STRS).1.toNat < 18 := by
      have h2 := hlt
      rw [show (0 : Nat) + MEVCLI_HISTORY_MAX_STRS = 18 from rfl] at h2
      exact h2
    have htvge : (0 : Int) ≤ c.history_strlens_topvalid := by
      rcases (show c.history_strlens_topvalid = -1 ∨ 0 ≤ c.history_strlens_topvalid
          from by omega) with he | he
      · exfalso
        have h18 : c.history_strlens_topvalid + 1 < (MEVCLI_HISTORY_MAX_STRS : Int) := by
          rw [hMi, he]; norm_num
        have h0 := htz h18
        rw [he] at h0
        exact hnz 0 (by omega) (by simpa using h0)
      · exact he
    have hhle : (((mevcli_ha_scan c.history_strlens (s.length + 1) 0 0 (-1) 0
        MEVCLI_HISTORY_MAX_STRS).1.toNat : Nat) : Int) ≤ c.history_strlens_topvalid := by
      by_contra hcon
      push_neg at hcon
      have h18 : c.history_strlens_topvalid + 1 < (MEVCLI_HISTORY_MAX_STRS : Int) := by
        rw [hMi]; omega
      exact hnz (c.history_strlens_topvalid + 1).toNat (by omega) (htz h18)
    rw [if_pos hge, if_pos hge]
    rw [← Int.toNat_of_nonneg hge]
    simp only [Int.toNat_natCast]
    refine ⟨?_, by trivial, ?_⟩
    · exact append_hist_inv_data_caseB c.history c.history_strlens s
        (mevcli_ha_scan c.history_strlens (s.length + 1) 0 0 (-1) 0
          MEVCLI_HISTORY_MAX_STRS).1.toNat
        (mevcli_ha_scan c.history_strlens (s.length + 1) 0 0 (-1) 0
          MEVCLI_HISTORY_MAX_STRS).2
        hst hsum (fun m hm => hts m (by omega)) (by omega) hl1 hl2 hpr
    · show (0 : Int) ≤ _
      split_ifs <;> omega

theorem mevcli_find_cmd_from_some (line : Nat → Nat) :
    ∀ fuel i j, mevcli_find_cmd_from line i fuel = some j →
      i ≤ j ∧ j < i + fuel ∧ 32 < line j := by
  intro fuel
  induction fuel with
  | zero => intro i j h; simp [mevcli_find_cmd_from] at h
  | succ fuel ih =>
    intro i j h
    simp only [mevcli_find_cmd_from] at h
    by_cases hgt : line i > 32
    · rw [if_pos hgt] at h
      have hij : i = j := by injection h
      subst hij
      exact ⟨by omega, by omega, hgt⟩
    · rw [if_neg hgt] at h
      obtain ⟨ha, hb, hc⟩ := ih (i + 1) j h
      exact ⟨by omega, by omega, hc⟩

/-- The command string captured by mevcli_process_cmd: under the printable
line invariant, the C string starting at the command index runs to the
terminator just written at line[linepos]. -/
theorem cmd_bytes_spec (c : mevcli_ctx_t) (cidx : Nat)
    (hpr : ∀ i, i < c.linepos → printable (c.line i))
    (hc : cidx < c.linepos) :
    mevcli_cstr (store c.line c.linepos 0) cidx (c.linepos + 1 - cidx)
      = (List.range (c.linepos - cidx)).map (fun m => store c.line c.linepos 0 (cidx + m)) := by
  apply mevcli_cstr_spec
  · omega
  · intro m hm
    simp only [store]
    rw [if_neg (by omega)]
    have hp := hpr (cidx + m) (by omega)
    unfold printable at hp
    omega
  · simp only [store]
    rw [if_pos (by omega)]

theorem process_cmd_ctx_none (c : mevcli_ctx_t)
    (hfind : mevcli_find_cmd_from (store c.line c.linepos 0) 0 c.linepos = none) :
    (mevcli_process_cmd c).ctx =
      { c with line := store c.line c.linepos 0, cursorpos := 0, linepos := 0,
               prompt_len := MEVCLI_PROMPT.length } := by
  simp only [mevcli_process_cmd, hfind]

theorem process_cmd_out_none (c : mevcli_ctx_t)
    (hfind : mevcli_find_cmd_from (store c.line c.linepos 0) 0 c.linepos = none) :
    (mevcli_process_cmd c).out = mevcli_newl_out ++ MEVCLI_PROMPT ∧
      (mevcli_process_cmd c).call = none := by
  simp only [mevcli_process_cmd, hfind]
  constructor
  · simp
  · trivial

theorem process_cmd_ctx_some (c : mevcli_ctx_t) (cidx : Nat)
    (hfind : mevcli_find_cmd_from (store c.line c.linepos 0) 0 c.linepos = some cidx) :
    (mevcli_process_cmd c).ctx =
      { mevcli_history_append { c with line := store c.line c.linepos 0 }
          (mevcli_cstr (store c.line c.linepos 0) cidx (c.linepos + 1 - cidx)) with
        line := mevcli_tok cidx (c.linepos - cidx) (store c.line c.linepos 0),
        cursorpos := 0, linepos := 0, prompt_len := MEVCLI_PROMPT.length } := by
  simp only [mevcli_process_cmd, hfind]
  rcases hfc : mevcli_find_command c.commands
      (mevcli_cstr (mevcli_tok cidx (c.linepos - cidx) (store c.line c.linepos 0)) cidx
        (c.linepos + 1 - cidx)) with _ | ci
  · simp only [hfc]
  · simp only [hfc]
    split_ifs <;> rfl

theorem process_cmd_out_suffix (c : mevcli_ctx_t) :
    ∃ pre, (mevcli_process_cmd c).out = pre ++ MEVCLI_PROMPT := by
  exact ⟨_, rfl⟩

theorem inv_process_cmd (c : mevcli_ctx_t) (h : mevcli_inv c) :
    mevcli_inv (mevcli_process_cmd c).ctx := by
  obtain ⟨⟨h1, h2, h3⟩, hcsi, hh, ⟨hb1, hb2, hb3⟩⟩ := h
  rcases hfind : mevcli_find_cmd_from (store c.line c.linepos 0) 0 c.linepos with _ | cidx
  · rw [process_cmd_ctx_none c hfind]
    refine ⟨⟨by show (0 : Nat) ≤ 0; omega, ?_, ?_⟩, hcsi, hh, hb1, hb2, hb3⟩
    · show (0 : Nat) ≤ MEVCLI_MAX_LINE_LEN
      omega
    · intro i hi
      have hi0 : i < 0 := hi
      omega
  · rw [process_cmd_ctx_some c cidx hfind]
    obtain ⟨hj0, hjlt, hjgt⟩ := mevcli_find_cmd_from_some _ _ _ _ hfind
    have hclt : cidx < c.linepos := by omega
    have hcb := cmd_bytes_spec c cidx h3 hclt
    have hslen : (mevcli_cstr (store c.line c.linepos 0) cidx (c.linepos + 1 - cidx)).length
        = c.linepos - cidx := by
      rw [hcb]
      simp
    have happ := inv_history_append { c with line := store c.line c.linepos 0 }
      (mevcli_cstr (store c.line c.linepos 0) cidx (c.linepos + 1 - cidx))
      hh (by omega) (by omega)
      (by
        intro j hj
        rw [hslen] at hj
        rw [hcb, getD_range_map _ _ _ _ hj]
        simp only [store]
        rw [if_neg (by omega)]
        exact h3 (cidx + j) (by omega))
    obtain ⟨happ1, happ2, happ3⟩ := happ
    have hbr : ({ mevcli_history_append { c with line := store c.line c.linepos 0 }
          (mevcli_cstr (store c.line c.linepos 0) cidx (c.linepos + 1 - cidx)) with
        line := mevcli_tok cidx (c.linepos - cidx) (store c.line c.linepos 0),
        cursorpos := 0, linepos := 0,
        prompt_len := MEVCLI_PROMPT.length } : mevcli_ctx_t).cur_hist_browse_idx = -1 := happ2
    have htv : (0 : Int) ≤ ({ mevcli_history_append { c with line := store c.line c.linepos 0 }
          (mevcli_cstr (store c.line c.linepos 0) cidx (c.linepos + 1 - cidx)) with
        line := mevcli_tok cidx (c.linepos - cidx) (store c.line c.linepos 0),
        cursorpos := 0, linepos := 0,
        prompt_len := MEVCLI_PROMPT.length } : mevcli_ctx_t).history_strlens_topvalid := happ3
    refine ⟨⟨by show (0 : Nat) ≤ 0; omega, ?_, ?_⟩, hcsi, happ1, ?_, ?_, ?_⟩
    · show (0 : Nat) ≤ MEVCLI_MAX_LINE_LEN
      omega
    · intro i hi
      have hi0 : i < 0 := hi
      omega
    · exact hbr.ge
    · rw [hbr]
      omega
    · intro hx
      rw [hbr] at hx
      exact absurd hx (by norm_num)

set_option maxHeartbeats 1000000 in
theorem inv_input_char (c : mevcli_ctx_t) (inb : Nat) (h : mevcli_inv c) :
    mevcli_inv (mevcli_input_char c inb).ctx := by
  have hesc := inv_process_esc_seq c inb h
  simp only [mevcli_input_char]
  split_ifs with h1 h2 h3 h4 h5 h6 h7 h8 h9 h10
  · exact hesc
  · exact h
  · exact inv_process_cmd c h
  · exact inv_char_delete c h
  · exact inv_cursor_start c h
  · exact inv_cursor_end c h
  · exact inv_cut_start c h
  · exact inv_cut_word c h
  · exact inv_cut_end c h
  · exact h
  · exact inv_char_insert c inb (by omega) (by omega) h

theorem inv_init (ctx0 : mevcli_ctx_t) (cmds : List mevcli_cmd_t) :
    mevcli_inv (mevcli_init ctx0 cmds).1 := by
  simp only [mevcli_init]
  refine ⟨⟨?_, ?_, ?_⟩, ?_, ⟨?_, ?_, ?_, ?_, ?_⟩, ?_, ?_, ?_⟩
  · show (0 : Nat) ≤ 0; omega
  · show (0 : Nat) ≤ MEVCLI_MAX_LINE_LEN; omega
  · intro i hi
    have hi0 : i < 0 := hi
    omega
  · show (0 : Nat) ≤ 2; omega
  · show (-1 : Int) ≤ -1; norm_num
  · show (-1 : Int) < (MEVCLI_HISTORY_MAX_STRS : Int)
    rw [MEVCLI_HISTORY_MAX_STRS_int]
    norm_num
  · intro i hi
    have hi2 : (i : Int) ≤ -1 := hi
    exact absurd hi2 (by omega)
  · show lens_sum (mevcli_clear_lens MEVCLI_HISTORY_MAX_STRS ctx0.history_strlens)
      ((-1 : Int) + 1).toNat ≤ MEVCLI_HISTORY_BUFLEN
    rw [show ((-1 : Int) + 1).toNat = 0 from by omega]
    show (0 : Nat) ≤ MEVCLI_HISTORY_BUFLEN
    omega
  · intro _
    show mevcli_clear_lens MEVCLI_HISTORY_MAX_STRS ctx0.history_strlens
      ((-1 : Int) + 1).toNat = 0
    rw [show ((-1 : Int) + 1).toNat = 0 from by omega]
    rw [mevcli_clear_lens_spec]
    rw [if_pos (by rw [MEVCLI_HISTORY_MAX_STRS_eq]; omega)]
  · show (-1 : Int) ≤ -1; norm_num
  · show (-1 : Int) ≤ -1; norm_num
  · intro hx
    have hx2 : (0 : Int) ≤ -1 := hx
    exact absurd hx2 (by norm_num)

/-- The combined invariant holds in every context reachable through the
public API. -/
theorem mevcli_reachable_inv (c : mevcli_ctx_t) (h : mevcli_reachable c) : mevcli_inv c := by
  induction h with
  | init ctx0 cmds => exact inv_init ctx0 cmds
  | step c2 inb _ ih => exact inv_input_char c2 inb ih

----------------------------------------------------------------------
-- Browse round trips (for the up/down restore law)

/-- k consecutive mevcli_cursor_up calls (state part). -/
def mevcli_upN : Nat → mevcli_ctx_t → mevcli_ctx_t
  | 0, c => c
  | k + 1, c => mevcli_upN k (mevcli_cursor_up c).1

/-- k consecutive mevcli_cursor_down calls (state part). -/
def mevcli_downN : Nat → mevcli_ctx_t → mevcli_ctx_t
  | 0, c => c
  | k + 1, c => mevcli_downN k (mevcli_cursor_down c).1

theorem cursor_up_enter (c : mevcli_ctx_t)
    (hbm : c.cur_hist_browse_idx = -1)
    (hne : c.cur_hist_browse_idx ≠ c.history_strlens_topvalid) :
    (mevcli_cursor_up c).1.cur_hist_browse_idx = 0 ∧
      (mevcli_cursor_up c).1.history_strlens_topvalid = c.history_strlens_topvalid ∧
      (mevcli_cursor_up c).1.backup_line = mevcli_cpy c.backup_line c.line c.linepos ∧
      (mevcli_cursor_up c).1.backup_linepos = c.linepos := by
  simp only [mevcli_cursor_up]
  rw [if_neg hne, if_pos hbm]
  refine ⟨?_, rfl, rfl, rfl⟩
  show c.cur_hist_browse_idx + 1 = 0
  omega

theorem cursor_up_browsing (c : mevcli_ctx_t)
    (h0 : 0 ≤ c.cur_hist_browse_idx)
    (hne : c.cur_hist_browse_idx ≠ c.history_strlens_topvalid) :
    (mevcli_cursor_up c).1.cur_hist_browse_idx = c.cur_hist_browse_idx + 1 ∧
      (mevcli_cursor_up c).1.history_strlens_topvalid = c.history_strlens_topvalid ∧
      (mevcli_cursor_up c).1.backup_line = c.backup_line ∧
      (mevcli_cursor_up c).1.backup_linepos = c.backup_linepos := by
  simp only [mevcli_cursor_up]
  rw [if_neg hne, if_neg (by omega : ¬ c.cur_hist_browse_idx = -1)]
  exact ⟨rfl, rfl, rfl, rfl⟩

theorem cursor_down_browsing (c : mevcli_ctx_t)
    (h1 : 1 ≤ c.cur_hist_browse_idx) :
    (mevcli_cursor_down c).1.cur_hist_browse_idx = c.cur_hist_browse_idx - 1 ∧
      (mevcli_cursor_down c).1.history_strlens_topvalid = c.history_strlens_topvalid ∧
      (mevcli_cursor_down c).1.backup_line = c.backup_line ∧
      (mevcli_cursor_down c).1.backup_linepos = c.backup_linepos := by
  simp only [mevcli_cursor_down]
  rw [if_neg (by omega : ¬ c.cur_hist_browse_idx = -1),
      if_neg (by omega : ¬ c.cur_hist_browse_idx = 0)]
  exact ⟨rfl, rfl, rfl, rfl⟩

theorem cursor_down_restore (c : mevcli_ctx_t)
    (hb0 : c.cur_hist_browse_idx = 0) :
    (mevcli_cursor_down c).1.cur_hist_browse_idx = -1 ∧
      (mevcli_cursor_down c).1.linepos = c.backup_linepos ∧
      (mevcli_cursor_down c).1.line = mevcli_cpy c.line c.backup_line c.backup_linepos := by
  simp only [mevcli_cursor_down]
  rw [if_neg (by omega : ¬ c.cur_hist_browse_idx = -1), if_pos hb0]
  exact ⟨rfl, rfl, rfl⟩

theorem upN_browsing : ∀ (k : Nat) (c : mevcli_ctx_t),
    0 ≤ c.cur_hist_browse_idx →
    c.cur_hist_browse_idx + (k : Int) ≤ c.history_strlens_topvalid →
    (mevcli_upN k c).cur_hist_browse_idx = c.cur_hist_browse_idx + (k : Int) ∧
      (mevcli_upN k c).history_strlens_topvalid = c.history_strlens_topvalid ∧
      (mevcli_upN k c).backup_line = c.backup_line ∧
      (mevcli_upN k c).backup_linepos = c.backup_linepos := by
  intro k
  induction k with
  | zero =>
    intro c h1 h2
    exact ⟨by simp [mevcli_upN], rfl, rfl, rfl⟩
  | succ k ih =>
    intro c h1 h2
    have hne : c.cur_hist_browse_idx ≠ c.history_strlens_topvalid := by
      push_cast at h2
      omega
    obtain ⟨e1, e2, e3, e4⟩ := cursor_up_browsing c h1 hne
    simp only [mevcli_upN]
    obtain ⟨f1, f2, f3, f4⟩ := ih (mevcli_cursor_up c).1
      (by rw [e1]; omega)
      (by rw [e1, e2]; push_cast at h2 ⊢; omega)
    refine ⟨?_, ?_, ?_, ?_⟩
    · rw [f1, e1]; push_cast; ring
    · rw [f2, e2]
    · rw [f3, e3]
    · rw [f4, e4]

theorem downN_browsing : ∀ (k : Nat) (c : mevcli_ctx_t),
    (k : Int) ≤ c.cur_hist_browse_idx →
    (mevcli_downN k c).cur_hist_browse_idx = c.cur_hist_browse_idx - (k : Int) ∧
      (mevcli_downN k c).history_strlens_topvalid = c.history_strlens_topvalid ∧
      (mevcli_downN k c).backup_line = c.backup_line ∧
      (mevcli_downN k c).backup_linepos = c.backup_linepos := by
  intro k
  induction k with
  | zero =>
    intro c h1
    exact ⟨by simp [mevcli_downN], rfl, rfl, rfl⟩
  | succ k ih =>
    intro c h1
    obtain ⟨e1, e2, e3, e4⟩ := cursor_down_browsing c (by push_cast at h1; omega)
    simp only [mevcli_downN]
    obtain ⟨f1, f2, f3, f4⟩ := ih (mevcli_cursor_down c).1
      (by rw [e1]; push_cast at h1 ⊢; omega)
    refine ⟨?_, ?_, ?_, ?_⟩
    · rw [f1, e1]; push_cast; ring
    · rw [f2, e2]
    · rw [f3, e3]
    · rw [f4, e4]

theorem downN_succ (k : Nat) : ∀ c : mevcli_ctx_t,
    mevcli_downN (k + 1) c = (mevcli_cursor_down (mevcli_downN k c)).1 := by
  induction k with
  | zero => intro c; rfl
  | succ k ih =>
    intro c
    show mevcli_downN (k + 1) (mevcli_cursor_down c).1
      = (mevcli_cursor_down (mevcli_downN (k + 1) c)).1
    rw [ih (mevcli_cursor_down c).1]
    rfl

----------------------------------------------------------------------
-- Helper facts about the submitted entry in slot 0

theorem history_append_slot0 (c : mevcli_ctx_t) (s : List Nat) :
    (mevcli_history_append c s).history_strlens 0 = s.length + 1 ∧
      (∀ j, j < s.length → (mevcli_history_append c s).history j = s.getD j 0) ∧
      (mevcli_history_append c s).history s.length = 0 := by
  simp only [mevcli_history_append]
  refine ⟨?_, ?_, ?_⟩
  · simp [store]
  · intro j hj
    exact write_cstr_lt s _ j hj
  · exact write_cstr_term s _

----------------------------------------------------------------------
-- Concrete contexts for the example instantiations

/-- A concrete caller-owned context record (the fields mevcli_init does not
assign are arbitrary, here fixed values). -/
def testCtx : mevcli_ctx_t :=
  { commands := [], prompt_len := 2, linepos := 0, cursorpos := 0, csi_fsm_state := 0,
    line := fun _ => 32, history := fun _ => 0, backup_line := fun _ => 0,
    backup_linepos := 0, history_strlens := fun _ => 0,
    history_strlens_topvalid := -1, cur_hist_browse_idx := -1 }

/-- Initialized context after one input character 'a'. -/
def ctxW4 : mevcli_ctx_t := (mevcli_input_char (mevcli_init testCtx []).1 97).ctx

/-- Initialized context after inputs 'a', 'b'. -/
def ctxW6b : mevcli_ctx_t := (mevcli_input_char ctxW4 98).ctx

/-- Initialized context after inputs 'a', 'b', CR (one history entry). -/
def ctxW6 : mevcli_ctx_t := (mevcli_input_char ctxW6b 13).ctx

/-- A context that is browsing history (browse index 0, one valid slot)
with an empty line buffer, as reached by: submit "foo", press up, press
^U (cut to start), leaving the line empty while browse_idx is still 0. -/
def ctxC1 : mevcli_ctx_t :=
  { testCtx with
      cur_hist_browse_idx := 0, history_strlens_topvalid := 0,
      history_strlens := fun i => if i = 0 then 4 else 0,
      history := fun i => if i < 3 then 102 else 0 }

/-- A context with the line buffer full (linepos = L). -/
def ctxW9 : mevcli_ctx_t := { testCtx with linepos := 78 }

/-- A context with one 3-byte history entry, for the browse round trip. -/
def ctxW8 : mevcli_ctx_t :=
  { testCtx with
      history_strlens_topvalid := 0,
      history_strlens := fun i => if i = 0 then 3 else 0,
      history := fun i => if i < 2 then 97 else 0 }

/-- A context holding the printable line "ab". -/
def ctxW5 : mevcli_ctx_t :=
  { testCtx with linepos := 2, line := fun i => if i < 2 then 97 + i else 32 }

----------------------------------------------------------------------
-- The claims

/-- Claim C1 (corrected), counterexample: in a reachable-shape state that is
browsing history (browse_idx = 0) with an empty line, submitting the line
(mevcli_process_cmd) leaves cur_hist_browse_idx at 0, not -1 as the claim
asserts for the empty-line case. -/
theorem claim_c1_counterexample :
    (mevcli_process_cmd ctxC1).ctx.cur_hist_browse_idx ≠ -1 := by
  decide

/-- Claim C1 (corrected, amended): after mevcli_process_cmd returns,
cursorpos = 0, linepos = 0 and the prompt has been emitted, in every case;
cur_hist_browse_idx is reset to -1 whenever the line held a command word
(a byte > 0x20), and is left unchanged when the line was empty or
whitespace-only. -/
theorem claim_c1_amended (c : mevcli_ctx_t) :
    (mevcli_process_cmd c).ctx.cursorpos = 0 ∧
      (mevcli_process_cmd c).ctx.linepos = 0 ∧
      (∃ pre, (mevcli_process_cmd c).out = pre ++ MEVCLI_PROMPT) ∧
      ((∃ i, i < c.linepos ∧ 32 < c.line i) →
        (mevcli_process_cmd c).ctx.cur_hist_browse_idx = -1) ∧
      ((∀ i, i < c.linepos → c.line i ≤ 32) →
        (mevcli_process_cmd c).ctx.cur_hist_browse_idx = c.cur_hist_browse_idx) := by
  refine ⟨rfl, rfl, process_cmd_out_suffix c, ?_, ?_⟩
  · intro ⟨i, hi1, hi2⟩
    rcases hfind : mevcli_find_cmd_from (store c.line c.linepos 0) 0 c.linepos with _ | cs
    · exfalso
      rw [mevcli_find_cmd_from_none_iff] at hfind
      have hle := hfind i (by omega) (by omega)
      simp only [store] at hle
      rw [if_neg (by omega)] at hle
      omega
    · rw [process_cmd_ctx_some c cs hfind]
      rfl
  · intro hws
    have hfind : mevcli_find_cmd_from (store c.line c.linepos 0) 0 c.linepos = none := by
      rw [mevcli_find_cmd_from_none_iff]
      intro m h1 h2
      simp only [store]
      split_ifs with he
      · omega
      · exact hws m (by omega)
    rw [process_cmd_ctx_none c hfind]

/-- Claim C1 witness: a submission whose line is "ab" resets cursorpos,
linepos and browse index and re-emits the prompt. -/
theorem claim_c1_witness :
    (mevcli_process_cmd ctxW5).ctx.cursorpos = 0 ∧
      (mevcli_process_cmd ctxW5).ctx.linepos = 0 ∧
      (∃ pre, (mevcli_process_cmd ctxW5).out = pre ++ MEVCLI_PROMPT) ∧
      (mevcli_process_cmd ctxW5).ctx.cur_hist_browse_idx = -1 :=
  ⟨(claim_c1_amended ctxW5).1, (claim_c1_amended ctxW5).2.1,
    (claim_c1_amended ctxW5).2.2.1,
    (claim_c1_amended ctxW5).2.2.2.1 ⟨0, by decide, by decide⟩⟩

/-- Claim C2 (code_bug): at x = 999 the code increments to 1000, whose four
decimal digits overflow the 3-byte digits buffer; numdig exits at 3 and
digits[3] is read out of bounds.  Seven bytes are emitted: ESC, '[', one
unspecified byte, then '0' '0' '0' 'G' — where the claim permits at most
six bytes (ESC, '[', 1-3 digits, 'G'). -/
theorem claim_c2_overflow_at_999 :
    (mevcli_ansi_cursorpos_out 999).length = 7 ∧
      List.take 2 (mevcli_ansi_cursorpos_out 999) = [27, 91] ∧
      List.drop 3 (mevcli_ansi_cursorpos_out 999) = [48, 48, 48, 71] := by
  decide

/-- Claim C3 (corrected), counterexample: cursor-word-left at cursorpos = 0
changes neither the line, linepos nor cursorpos, yet emits an absolute
column move, contradicting the claim that no-op operations emit nothing. -/
theorem claim_c3_counterexample :
    (mevcli_cursor_left_word testCtx).1.cursorpos = testCtx.cursorpos ∧
      (mevcli_cursor_left_word testCtx).1.linepos = testCtx.linepos ∧
      (mevcli_cursor_left_word testCtx).1.line = testCtx.line ∧
      (mevcli_cursor_left_word testCtx).2 ≠ [] :=
  ⟨rfl, rfl, rfl, by decide⟩

/-- Claim C3 (corrected, amended): among the listed operations, cursor
left/right by character, cursor start/end, char-delete and cut-to-end emit
no byte when they are no-ops; the cursor-by-word moves (and cut-to-start /
cut-word-left, which share mevcli_cut_down_to's unconditional redraw)
always emit a cursor reposition even when the state is unchanged. -/
theorem claim_c3_amended (c : mevcli_ctx_t) :
    (c.cursorpos = 0 → mevcli_cursor_left c = (c, [])) ∧
      (c.linepos ≤ c.cursorpos → mevcli_cursor_right c = (c, [])) ∧
      (c.cursorpos = 0 → mevcli_cursor_start c = (c, [])) ∧
      (c.linepos ≤ c.cursorpos → mevcli_cursor_end c = (c, [])) ∧
      (c.cursorpos = 0 → mevcli_char_delete c = (c, [])) ∧
      (c.linepos ≤ c.cursorpos → mevcli_cut_end c = (c, [])) := by
  refine ⟨?_, ?_, ?_, ?_, ?_, ?_⟩ <;> intro h
  · unfold mevcli_cursor_left; rw [if_neg (by omega)]
  · unfold mevcli_cursor_right; rw [if_neg (by omega)]
  · unfold mevcli_cursor_start; rw [if_neg (by omega)]
  · unfold mevcli_cursor_end; rw [if_neg (by omega)]
  · unfold mevcli_char_delete; rw [if_neg (by omega)]
  · unfold mevcli_cut_end; rw [if_neg (by omega)]

/-- Claim C3 witness: cursor-left and cut-to-end at an empty line emit
nothing and change nothing. -/
theorem claim_c3_witness :
    mevcli_cursor_left testCtx = (testCtx, []) ∧ mevcli_cut_end testCtx = (testCtx, []) :=
  ⟨(claim_c3_amended testCtx).1 rfl, (claim_c3_amended testCtx).2.2.2.2.2 (by decide)⟩

/-- Claim C4 (confirmed): in every context reachable from mevcli_init by
any sequence of mevcli_input_char calls, 0 ≤ cursorpos ≤ linepos ≤ L = 78,
every byte of line[0..linepos) is in 0x20..0x7E, and csi_fsm_state is one
of 0, 1, 2. -/
theorem claim_c4_state_invariants (c : mevcli_ctx_t) (h : mevcli_reachable c) :
    0 ≤ c.cursorpos ∧ c.cursorpos ≤ c.linepos ∧ c.linepos ≤ MEVCLI_MAX_LINE_LEN ∧
      (∀ i, i < c.linepos → 32 ≤ c.line i ∧ c.line i ≤ 126) ∧
      (c.csi_fsm_state = 0 ∨ c.csi_fsm_state = 1 ∨ c.csi_fsm_state = 2) := by
  obtain ⟨⟨h1, h2, h3⟩, hcsi, _, _⟩ := mevcli_reachable_inv c h
  exact ⟨Nat.zero_le _, h1, h2, fun i hi => h3 i hi, by omega⟩

/-- Claim C4 witness: the invariants at the reachable context obtained by
initializing and feeding the byte 'a'. -/
theorem claim_c4_witness :
    0 ≤ ctxW4.cursorpos ∧ ctxW4.cursorpos ≤ ctxW4.linepos ∧
      ctxW4.linepos ≤ MEVCLI_MAX_LINE_LEN ∧
      (∀ i, i < ctxW4.linepos → 32 ≤ ctxW4.line i ∧ ctxW4.line i ≤ 126) ∧
      (ctxW4.csi_fsm_state = 0 ∨ ctxW4.csi_fsm_state = 1 ∨ ctxW4.csi_fsm_state = 2) :=
  claim_c4_state_invariants ctxW4
    (mevcli_reachable.step (mevcli_init testCtx []).1 97 (mevcli_reachable.init testCtx []))

/-- Claim C5 (confirmed): submitting a line containing a non-whitespace
byte stores, in history slot 0, exactly the bytes from the first
non-whitespace index through linepos-1 followed by a zero terminator — the
full trimmed line including arguments (mevcli_history_append is called on
the command pointer before the whitespace-to-terminator pass, so the
C string it copies runs to the end of the line). -/
theorem claim_c5_full_line_in_history (c : mevcli_ctx_t) (cs : Nat)
    (hpr : ∀ i, i < c.linepos → 32 ≤ c.line i ∧ c.line i ≤ 126)
    (hcs1 : cs < c.linepos) (hcs2 : 32 < c.line cs)
    (hfirst : ∀ m, m < cs → c.line m ≤ 32) :
    (mevcli_process_cmd c).ctx.history_strlens 0 = (c.linepos - cs) + 1 ∧
      (∀ j, j < c.linepos - cs → (mevcli_process_cmd c).ctx.history j = c.line (cs + j)) ∧
      (mevcli_process_cmd c).ctx.history (c.linepos - cs) = 0 := by
  have hfind : mevcli_find_cmd_from (store c.line c.linepos 0) 0 c.linepos = some cs := by
    apply mevcli_find_cmd_from_first
    · omega
    · omega
    · simp only [store]
      rw [if_neg (by omega)]
      exact hcs2
    · intro m hm1 hm2
      simp only [store]
      rw [if_neg (by omega)]
      exact hfirst m hm2
  rw [process_cmd_ctx_some c cs hfind]
  have hcb := cmd_bytes_spec c cs (fun i hi => hpr i hi) hcs1
  have hslen : (mevcli_cstr (store c.line c.linepos 0) cs (c.linepos + 1 - cs)).length
      = c.linepos - cs := by
    rw [hcb]
    simp
  obtain ⟨ha0, haj, hat⟩ := history_append_slot0
    { c with line := store c.line c.linepos 0 }
    (mevcli_cstr (store c.line c.linepos 0) cs (c.linepos + 1 - cs))
  refine ⟨?_, ?_, ?_⟩
  · rw [hslen] at ha0
    exact ha0
  · intro j hj
    have hj2 : j < (mevcli_cstr (store c.line c.linepos 0) cs (c.linepos + 1 - cs)).length := by
      rw [hslen]
      omega
    refine Eq.trans (haj j hj2) ?_
    rw [hcb, getD_range_map _ _ _ _ (show j < c.linepos - cs from by omega)]
    simp only [store]
    rw [if_neg (by omega)]
  · rw [hslen] at hat
    exact hat

/-- Claim C5 witness: submitting the line "ab" stores "ab" plus terminator
as history slot 0 with packed length 3. -/
theorem claim_c5_witness :
    (mevcli_process_cmd ctxW5).ctx.history_strlens 0 = 3 ∧
      (mevcli_process_cmd ctxW5).ctx.history 0 = 97 ∧
      (mevcli_process_cmd ctxW5).ctx.history 1 = 98 ∧
      (mevcli_process_cmd ctxW5).ctx.history 2 = 0 := by
  have h := claim_c5_full_line_in_history ctxW5 0 (by decide)
    (by decide) (by decide) (fun m hm => absurd hm (by omega))
  exact ⟨h.1, by have := h.2.1 0 (by decide); simpa using this,
    by have := h.2.1 1 (by decide); simpa using this, h.2.2⟩

/-- Claim C6 (confirmed): in every reachable context the packed history
lengths of the valid slots (indices 0..top_valid) sum to at most H = 512,
and the length list carries a 0 sentinel at top_valid+1 whenever that slot
exists. -/
theorem claim_c6_history_store_bounds (c : mevcli_ctx_t) (h : mevcli_reachable c) :
    lens_sum c.history_strlens (c.history_strlens_topvalid + 1).toNat ≤ MEVCLI_HISTORY_BUFLEN ∧
      (c.history_strlens_topvalid + 1 < (MEVCLI_HISTORY_MAX_STRS : Int) →
        c.history_strlens (c.history_strlens_topvalid + 1).toNat = 0) := by
  obtain ⟨_, _, ⟨_, _, _, hsum, hz⟩, _⟩ := mevcli_reachable_inv c h
  exact ⟨hsum, hz⟩

/-- Claim C6 witness: the history bounds at the reachable context obtained
by typing "ab" and submitting it. -/
theorem claim_c6_witness :
    lens_sum ctxW6.history_strlens (ctxW6.history_strlens_topvalid + 1).toNat
        ≤ MEVCLI_HISTORY_BUFLEN ∧
      (ctxW6.history_strlens_topvalid + 1 < (MEVCLI_HISTORY_MAX_STRS : Int) →
        ctxW6.history_strlens (ctxW6.history_strlens_topvalid + 1).toNat = 0) :=
  claim_c6_history_store_bounds ctxW6
    (mevcli_reachable.step ctxW6b 13
      (mevcli_reachable.step ctxW4 98
        (mevcli_reachable.step (mevcli_init testCtx []).1 97
          (mevcli_reachable.init testCtx []))))

/-- Claim C7 (confirmed): submitting an empty or whitespace-only line emits
exactly CR LF followed by the prompt, invokes no command handler, and
leaves the history bytes, the packed-length table and top_valid
unchanged. -/
theorem claim_c7_blank_line_submit (c : mevcli_ctx_t)
    (hws : ∀ i, i < c.linepos → c.line i ≤ 32) :
    (mevcli_process_cmd c).out = [13, 10] ++ MEVCLI_PROMPT ∧
      (mevcli_process_cmd c).call = none ∧
      (mevcli_process_cmd c).ctx.history = c.history ∧
      (mevcli_process_cmd c).ctx.history_strlens = c.history_strlens ∧
      (mevcli_process_cmd c).ctx.history_strlens_topvalid = c.history_strlens_topvalid := by
  have hfind : mevcli_find_cmd_from (store c.line c.linepos 0) 0 c.linepos = none := by
    rw [mevcli_find_cmd_from_none_iff]
    intro m h1 h2
    simp only [store]
    split_ifs with he
    · omega
    · exact hws m (by omega)
  obtain ⟨ho, hcall⟩ := process_cmd_out_none c hfind
  have hctx := process_cmd_ctx_none c hfind
  refine ⟨ho, hcall, ?_, ?_, ?_⟩ <;> rw [hctx]

/-- Claim C7 witness: submitting an empty line in the initialized context. -/
theorem claim_c7_witness :
    (mevcli_process_cmd (mevcli_init testCtx []).1).out = [13, 10] ++ MEVCLI_PROMPT ∧
      (mevcli_process_cmd (mevcli_init testCtx []).1).call = none ∧
      (mevcli_process_cmd (mevcli_init testCtx []).1).ctx.history
          = (mevcli_init testCtx []).1.history ∧
      (mevcli_process_cmd (mevcli_init testCtx []).1).ctx.history_strlens
          = (mevcli_init testCtx []).1.history_strlens ∧
      (mevcli_process_cmd (mevcli_init testCtx []).1).ctx.history_strlens_topvalid
          = (mevcli_init testCtx []).1.history_strlens_topvalid :=
  claim_c7_blank_line_submit (mevcli_init testCtx []).1 (by intro i hi; simp [mevcli_init] at hi)

/-- Claim C8 (confirmed): from normal editing (browse_idx = -1) with
1 ≤ k ≤ top_valid+1 entries available, k browse-up steps followed by k
browse-down steps restore linepos and line[0..linepos) exactly and return
browse_idx to -1. -/
theorem claim_c8_browse_round_trip (c : mevcli_ctx_t) (k : Nat)
    (hbm : c.cur_hist_browse_idx = -1) (hk1 : 1 ≤ k)
    (hk2 : (k : Int) ≤ c.history_strlens_topvalid + 1) :
    (mevcli_downN k (mevcli_upN k c)).linepos = c.linepos ∧
      (∀ i, i < c.linepos → (mevcli_downN k (mevcli_upN k c)).line i = c.line i) ∧
      (mevcli_downN k (mevcli_upN k c)).cur_hist_browse_idx = -1 := by
  obtain ⟨k1, rfl⟩ : ∃ k1, k = k1 + 1 := ⟨k - 1, by omega⟩
  have htv : (k1 : Int) ≤ c.history_strlens_topvalid := by push_cast at hk2; omega
  have hne : c.cur_hist_browse_idx ≠ c.history_strlens_topvalid := by omega
  obtain ⟨e1, e2, e3, e4⟩ := cursor_up_enter c hbm hne
  have hupsplit : mevcli_upN (k1 + 1) c = mevcli_upN k1 (mevcli_cursor_up c).1 := rfl
  rw [hupsplit, downN_succ k1]
  obtain ⟨u1, u2, u3, u4⟩ := upN_browsing k1 (mevcli_cursor_up c).1
    (by rw [e1]) (by rw [e1, e2]; omega)
  obtain ⟨d1, d2, d3, d4⟩ := downN_browsing k1 (mevcli_upN k1 (mevcli_cursor_up c).1)
    (by rw [u1, e1]; omega)
  have hb0 : (mevcli_downN k1 (mevcli_upN k1 (mevcli_cursor_up c).1)).cur_hist_browse_idx
      = 0 := by
    rw [d1, u1, e1]
    omega
  obtain ⟨r1, r2, r3⟩ := cursor_down_restore _ hb0
  have hbl : (mevcli_downN k1 (mevcli_upN k1 (mevcli_cursor_up c).1)).backup_line
      = mevcli_cpy c.backup_line c.line c.linepos := by rw [d3, u3, e3]
  have hblp : (mevcli_downN k1 (mevcli_upN k1 (mevcli_cursor_up c).1)).backup_linepos
      = c.linepos := by rw [d4, u4, e4]
  refine ⟨?_, ?_, ?_⟩
  · rw [r2, hblp]
  · intro i hi
    rw [r3, mevcli_cpy_spec, hblp, if_pos hi, hbl, mevcli_cpy_spec, if_pos hi]
  · exact r1

/-- Claim C8 witness: one browse-up then one browse-down on a context with
one history entry restores the empty in-progress line. -/
theorem claim_c8_witness :
    (mevcli_downN 1 (mevcli_upN 1 ctxW8)).linepos = ctxW8.linepos ∧
      (∀ i, i < ctxW8.linepos → (mevcli_downN 1 (mevcli_upN 1 ctxW8)).line i = ctxW8.line i) ∧
      (mevcli_downN 1 (mevcli_upN 1 ctxW8)).cur_hist_browse_idx = -1 :=
  claim_c8_browse_round_trip ctxW8 1 rfl (by decide) (by decide)

/-- Claim C9 (confirmed): inserting a printable byte when the line buffer
is full (linepos = L) emits exactly one BEL and changes nothing, both at
the mevcli_char_insert level and through mevcli_input_char (in the idle
escape state, where a printable byte reaches the insert path). -/
theorem claim_c9_insert_full_line (c : mevcli_ctx_t) (inb : Nat)
    (hfull : c.linepos = MEVCLI_MAX_LINE_LEN) (h1 : 32 ≤ inb) (h2 : inb ≤ 126) :
    mevcli_char_insert c inb = (c, [MEVCLI_BELL_CHAR]) ∧
      (c.csi_fsm_state = 0 →
        (mevcli_input_char c inb).out = [MEVCLI_BELL_CHAR] ∧
          (mevcli_input_char c inb).ctx.line = c.line ∧
          (mevcli_input_char c inb).ctx.linepos = c.linepos ∧
          (mevcli_input_char c inb).ctx.cursorpos = c.cursorpos) := by
  have hML := MEVCLI_MAX_LINE_LEN_eq
  have hins : mevcli_char_insert c inb = (c, [MEVCLI_BELL_CHAR]) := by
    unfold mevcli_char_insert
    rw [if_pos (by omega)]
  refine ⟨hins, ?_⟩
  intro hcsi
  have hesc : mevcli_process_esc_seq c inb = ⟨c, [], false⟩ := by
    simp only [mevcli_process_esc_seq]
    rw [if_pos hcsi, if_neg (by omega : ¬ inb = 27)]
  simp only [mevcli_input_char, hesc, Bool.false_eq_true, if_false]
  rw [if_neg (by omega : ¬ inb = 9), if_neg (by omega : ¬ inb = 13),
      if_neg (by omega : ¬ inb = 127), if_neg (by omega : ¬ inb = 1),
      if_neg (by omega : ¬ inb = 5), if_neg (by omega : ¬ inb = 21),
      if_neg (by omega : ¬ inb = 23), if_neg (by omega : ¬ inb = 11),
      if_neg (by omega : ¬ (inb < 32 ∨ inb > 126)), hins]
  exact ⟨rfl, rfl, rfl, rfl⟩

/-- Claim C9 witness: feeding 'a' with the line full rings the bell and
leaves the buffer alone. -/
theorem claim_c9_witness :
    (mevcli_input_char ctxW9 97).out = [MEVCLI_BELL_CHAR] ∧
      (mevcli_input_char ctxW9 97).ctx.line = ctxW9.line ∧
      (mevcli_input_char ctxW9 97).ctx.linepos = ctxW9.linepos ∧
      (mevcli_input_char ctxW9 97).ctx.cursorpos = ctxW9.cursorpos :=
  (claim_c9_insert_full_line ctxW9 97 rfl (by decide) (by decide)).2 rfl

/-- Claim C10 (confirmed): in every reachable context, every valid history
slot's packed length is between 2 and L+1 = 79: entries are never empty
and always fit the line buffer, so a browsed entry copies at most L bytes
into line. -/
theorem claim_c10_slot_lengths (c : mevcli_ctx_t) (h : mevcli_reachable c) :
    ∀ i : Nat, (i : Int) ≤ c.history_strlens_topvalid →
      2 ≤ c.history_strlens i ∧ c.history_strlens i ≤ MEVCLI_MAX_LINE_LEN + 1 := by
  obtain ⟨_, _, ⟨_, _, hts, _, _⟩, _⟩ := mevcli_reachable_inv c h
  intro i hi
  exact ⟨(hts i hi).1, (hts i hi).2.1⟩

/-- Claim C10 witness: the slot-length bounds at the reachable context
obtained by typing "ab" and submitting it. -/
theorem claim_c10_witness :
    2 ≤ ctxW6.history_strlens 0 ∧ ctxW6.history_strlens 0 ≤ MEVCLI_MAX_LINE_LEN + 1 :=
  claim_c10_slot_lengths ctxW6
    (mevcli_reachable.step ctxW6b 13
      (mevcli_reachable.step ctxW4 98
        (mevcli_reachable.step (mevcli_init testCtx []).1 97
          (mevcli_reachable.init testCtx []))))
    0 (by decide)
